import Mathlib

/-!
Verification of the graph-of-thought document indexing and retrieval core.

This file gives a shallow embedding, in Lean 4, of the TypeScript core of the
repository: the heading classifiers and tree generator (`TreeGenerator.ts`),
the graph indexer (`GraphIndexer.ts`), the two BMSSP bounded multi-source
path-search variants (`BMSSP.ts` and `OptimizedBMSSP.ts`), and the keyword
scorer (`SimpleSearch`).  JavaScript numbers are modelled by `ℚ` (all the
arithmetic the core performs is exact on small rationals), JS strings by
`String`/`List Char` (ASCII case mapping), JS `Set`s by lists used up to
membership, and `Array.prototype.sort` (a stable sort under a consistent
comparator) by a stable insertion sort.  The non-deterministic
`Math.random()` node-id generator is modelled by a deterministic counter id
supply, whose only relied-upon property — uniqueness within one index — is
the one the design notes require.  Loops are modelled with an explicit fuel
that bounds the number of iterations; every theorem below holds for every
fuel value, and the fuel chosen is an upper bound on the iterations the
JS loop can perform.
-/

/-- Stable insertion of `a` into `l`, placing `a` before the first element `b`
with `le a b`.  Together with `sortIns` this models JS `Array.prototype.sort`
with a consistent comparator (stable, ordered by `le`). -/
def insertLe {α : Type} (le : α → α → Bool) (a : α) : List α → List α
  | [] => [a]
  | b :: bs => if le a b then a :: b :: bs else b :: insertLe le a bs

/-- Stable insertion sort by the boolean comparator `le`. -/
def sortIns {α : Type} (le : α → α → Bool) : List α → List α
  | [] => []
  | a :: as => insertLe le a (sortIns le as)

/-- JS `x || d` for an optional number: `undefined`, `NaN` and `0` are falsy,
so a stored `0` is replaced by the default. -/
def jsOrRat (o : Option ℚ) (d : ℚ) : ℚ :=
  match o with
  | some v => if v = 0 then d else v
  | none => d

/-- JS `x || d` for an optional integer (used for heading levels). -/
def jsOrNat (v : Nat) (d : Nat) : Nat :=
  if v = 0 then d else v

/-- `Math.max(...list)` over a non-empty list (`0` for `[]`; the source always
guards the empty case before calling it). -/
def listMax : List ℚ → ℚ
  | [] => 0
  | x :: xs => xs.foldl max x

/-- `[...new Set(l)]`: deduplication keeping first occurrences. -/
def jsDedup : List String → List String
  | [] => []
  | x :: xs => x :: (jsDedup xs).filter (fun y => y ≠ x)

/-- JS `String.prototype.includes`: substring containment. -/
def listInfix (needle : List Char) : List Char → Bool
  | [] => needle.isPrefixOf ([] : List Char)
  | c :: rest => needle.isPrefixOf (c :: rest) || listInfix needle rest

/-- ASCII lower-casing of a character list (models `toLowerCase`). -/
def lowerChars (cs : List Char) : List Char := cs.map Char.toLower

/-- ASCII upper-casing of a character list (models `toUpperCase`). -/
def upperChars (cs : List Char) : List Char := cs.map Char.toUpper

/-- JS `\w`: `[A-Za-z0-9_]`. -/
def isWordChar (c : Char) : Bool := c.isAlphanum || c = '_'

/-- `trim()`: strip leading and trailing whitespace. -/
def trimChars (cs : List Char) : List Char :=
  ((cs.dropWhile Char.isWhitespace).reverse.dropWhile Char.isWhitespace).reverse

/-- `split(/\s+/)`: pieces between maximal whitespace runs; a leading or
trailing run contributes an empty piece, and `''.split(/\s+/)` is `['']`.
`fuel` bounds the recursion (any `fuel ≥ cs.length` gives the full split). -/
def jsSplitWsAux : Nat → List Char → List Char → List (List Char)
  | 0, rest, acc => [acc.reverse ++ rest]
  | _ + 1, [], acc => [acc.reverse]
  | fuel + 1, c :: rest, acc =>
    if c.isWhitespace then
      acc.reverse :: jsSplitWsAux fuel (rest.dropWhile Char.isWhitespace) []
    else
      jsSplitWsAux fuel rest (c :: acc)

def jsSplitWs (cs : List Char) : List (List Char) :=
  jsSplitWsAux cs.length cs []

/-- One step of `split(/\n\s*\n/)`: given the characters after a `'\n'`,
the greedy `\s*` followed by `\n` matches up to the last `'\n'` inside the
maximal whitespace run; returns the remaining characters after the match,
or `none` when the regex does not match here. -/
def blankLineBreak (rest : List Char) : Option (List Char) :=
  let run := rest.takeWhile Char.isWhitespace
  if '\n' ∈ run then
    -- index (from the front of `run`) of the last '\n' in the run
    let k := run.length - 1 - (run.reverse.takeWhile (fun c => c ≠ '\n')).length
    some (rest.drop (k + 1))
  else none

/-- `content.split(/\n\s*\n/)` (paragraph splitting), with recursion fuel;
any `fuel ≥ cs.length` computes the full split. -/
def splitParasAux : Nat → List Char → List Char → List (List Char)
  | 0, rest, acc => [acc.reverse ++ rest]
  | _ + 1, [], acc => [acc.reverse]
  | fuel + 1, c :: rest, acc =>
    if c = '\n' then
      match blankLineBreak rest with
      | some rest' => acc.reverse :: splitParasAux fuel rest' []
      | none => splitParasAux fuel rest (c :: acc)
    else
      splitParasAux fuel rest (c :: acc)

/-- `splitIntoParagraphs`: split on blank-line boundaries, trim each piece,
drop empties (identical in `TreeGenerator` and `GraphIndexer`). -/
def splitIntoParagraphs (content : String) : List String :=
  (((splitParasAux content.data.length content.data []).map
      (fun cs => String.mk (trimChars cs))).filter (fun p => p.data ≠ []))

/-- `path.join('->')`, the path signature used for duplicate suppression. -/
def arrowJoin : List String → String
  | [] => ""
  | [s] => s
  | s :: rest => s ++ "->" ++ arrowJoin rest

/-! ## Heading classifiers (Segmenter / GraphIndexer) -/

/-- Characters matched by `.` in a JS regex (everything except line
terminators). -/
def isDotChar (c : Char) : Bool := !(c = '\n' || c = '\r')

/-- The trailing `(.*)` title group of the heading regexes: after the
mandatory greedy `\s+`, everything up to the next line terminator. -/
def titleOfRest (l : List Char) : List Char :=
  (l.dropWhile Char.isWhitespace).takeWhile isDotChar

/-- `paragraph.match(/^(#{1,6})\s+(.*)/)`: returns the number of leading
`#` characters (capture group 1's length) and the title (capture group 2).
With seven or more `#`s no whitespace can follow any prefix of at most six,
so the regex fails. -/
def markdownMatch (cs : List Char) : Option (Nat × List Char) :=
  let k := (cs.takeWhile (fun c => c = '#')).length
  if 1 ≤ k ∧ k ≤ 6 then
    match cs.drop k with
    | [] => none
    | c :: rest =>
      if c.isWhitespace then some (k, titleOfRest (c :: rest)) else none
  else none

/-- The `(\.\d+)*` part of the numbered-outline regex: consume dot-digit
groups greedily, returning their count and the rest.  Backtracking can never
help this regex (a shorter parse leaves `.` or a digit where `\s` is
required), so the greedy parse is exact. -/
def consumeDotRuns : Nat → Nat → List Char → Nat × List Char
  | 0, count, cs => (count, cs)
  | fuel + 1, count, cs =>
    match cs with
    | '.' :: rest =>
      let ds := rest.takeWhile Char.isDigit
      if ds.isEmpty then (count, cs)
      else consumeDotRuns fuel (count + 1) (rest.drop ds.length)
    | _ => (count, cs)

/-- `paragraph.match(/^(\d+(\.\d+)*)\s+(.*)/)`: returns the number of
dot-separated numeric components of group 1 and the title (group 3). -/
def numberedMatch (cs : List Char) : Option (Nat × List Char) :=
  let ds := cs.takeWhile Char.isDigit
  if ds.isEmpty then none
  else
    match (consumeDotRuns cs.length 0 (cs.drop ds.length)).2 with
    | [] => none
    | c :: rest =>
      if c.isWhitespace then
        some ((consumeDotRuns cs.length 0 (cs.drop ds.length)).1 + 1,
          titleOfRest (c :: rest))
      else none

/-- The fixed vocabulary of the common-section regex. -/
def commonSectionWords : List (List Char) :=
  ["introduction".data, "abstract".data, "conclusion".data, "references".data,
   "appendix".data, "summary".data, "overview".data, "background".data]

/-- `/^(introduction|...|background)/i.test(paragraph) && paragraph.length < 50`. -/
def commonSectionTest (cs : List Char) : Bool :=
  commonSectionWords.any (fun w => w.isPrefixOf (lowerChars cs)) &&
    decide (cs.length < 50)

/-- `/^[A-Z][^.!?]*$/.test(paragraph)`: a single capitalized run with no
internal terminal punctuation. -/
def capitalizedNoTerminal (cs : List Char) : Bool :=
  match cs with
  | [] => false
  | c :: rest =>
    ('A' ≤ c && c ≤ 'Z') &&
      (c :: rest).all (fun d => !(d = '.' || d = '!' || d = '?')) &&
      -- the first character is in A-Z hence not punctuation; `[^.!?]*`
      -- covers positions after it
      rest.all (fun d => !(d = '.' || d = '!' || d = '?'))

/-- The generic "looks like a label" heuristic of
`TreeGenerator.analyzeParagraphForSection` (short, few tokens, ends with a
colon, or capitalized without terminal punctuation, or fully upper-case);
returns the title with trailing colons stripped. -/
def labelHeuristicMatch (cs : List Char) : Option (List Char) :=
  if cs.length < 100 ∧ (jsSplitWs cs).length ≤ 10 ∧
      ((cs.getLast? = some ':') ∨ capitalizedNoTerminal cs = true ∨
        cs = upperChars cs) then
    some ((cs.reverse.dropWhile (fun c => c = ':')).reverse)
  else none

/-- Result record of `GraphIndexer.analyzeParagraph`. -/
structure SectionInfo where
  isSection : Bool
  title : String
  level : Nat
deriving DecidableEq

/-- Result record of `TreeGenerator.analyzeParagraphForSection`. -/
structure HeadingInfo where
  isHeading : Bool
  title : String
  level : Nat
deriving DecidableEq

namespace GraphIndexer

/-- `GraphIndexer.analyzeParagraph`: markdown heading, then numbered
section, then common section title; no generic label heuristic. -/
def analyzeParagraph (paragraph : String) : SectionInfo :=
  match markdownMatch paragraph.data with
  | some (k, title) => ⟨true, String.mk title, min k 4⟩
  | none =>
    match numberedMatch paragraph.data with
    | some (comps, title) => ⟨true, String.mk title, min comps 4⟩
    | none =>
      if commonSectionTest paragraph.data then ⟨true, paragraph, 1⟩
      else ⟨false, "", 0⟩

end GraphIndexer

namespace TreeGenerator

/-- `TreeGenerator.analyzeParagraphForSection`: caller-supplied custom
patterns first (a pattern is modelled as a matcher returning the captured
title), then numbered, then markdown, then common section, then the generic
label heuristic. -/
def analyzeParagraphForSection (headingPatterns : List (String → Option String))
    (paragraph : String) : HeadingInfo :=
  match headingPatterns.findSome? (fun pat => pat paragraph) with
  | some t => ⟨true, t, 1⟩
  | none =>
    match numberedMatch paragraph.data with
    | some (comps, title) => ⟨true, String.mk title, min comps 4⟩
    | none =>
      match markdownMatch paragraph.data with
      | some (k, title) => ⟨true, String.mk title, min k 4⟩
      | none =>
        if commonSectionTest paragraph.data then ⟨true, paragraph, 1⟩
        else
          match labelHeuristicMatch paragraph.data with
          | some title => ⟨true, String.mk title, 1⟩
          | none => ⟨false, "", 0⟩

end TreeGenerator

/-! ## Data model -/

/-- `TreeNode` (types/index.ts): tree index node. -/
structure TreeNode where
  nodeId : String
  title : String
  summary : String
  text : Option String
  startIndex : Int
  endIndex : Int
  children : List TreeNode

/-- `DocumentNode`: transient section record built by `identifySections`. -/
structure DocumentNode where
  title : String
  nodeId : String
  startIndex : Int
  endIndex : Int
  summary : String
  content : List String
  text : String
  level : Nat
deriving DecidableEq

/-- `TreeIndex` (document-level metadata omitted: it is presentation data
never read by the algorithms under verification). -/
structure TreeIndex where
  title : String
  nodes : List TreeNode

/-- The optional `metadata` bag of a `GraphNode`; the optional chains
`metadata?.level`, `metadata?.keywords`, `metadata?.centrality` collapse an
absent bag and an absent field into `none`. -/
structure GraphMetadata where
  level : Option Nat
  keywords : Option (List String)
  centrality : Option ℚ
deriving DecidableEq

/-- Position range of a `GraphNode` in the paragraph stream. -/
structure GraphPosition where
  start : Int
  «end» : Int
deriving DecidableEq

/-- `GraphNode` (types/index.ts). -/
structure GraphNode where
  nodeId : String
  title : String
  content : String
  summary : String
  type : String
  position : GraphPosition
  metadata : GraphMetadata
deriving DecidableEq

/-- `GraphEdge`; `from`/`to` are rendered `fromId`/`toId` (`from` is a Lean
keyword). -/
structure GraphEdge where
  fromId : String
  toId : String
  weight : ℚ
  type : String
deriving DecidableEq

/-- `GraphIndex` (index-level metadata omitted: timestamps and counts are
presentation data never read by the algorithms under verification). -/
structure GraphIndex where
  title : String
  nodes : List GraphNode
  edges : List GraphEdge

/-- `PathResult`. -/
structure PathResult where
  nodeIds : List String
  distance : ℚ
  pathScore : ℚ
  reasoning : String

/-- `BMSSPOptions` (all fields optional; defaults applied inside
`findBoundedPaths`). -/
structure BMSSPOptions where
  maxDepth : Option ℚ
  maxResults : Option Nat
  minEdgeWeight : Option ℚ

namespace TreeGenerator

/-- `generateSummary`: join with spaces and truncate to `maxSummaryLength`
with a three-character ellipsis. -/
def generateSummary (maxSummaryLength : Nat) (content : List String) : String :=
  let text := String.mk (joinSpace (content.map String.data))
  if text.data.length ≤ maxSummaryLength then text
  else String.mk ((text.data.take (maxSummaryLength - 3)) ++ "...".data)
where joinSpace : List (List Char) → List Char
  | [] => []
  | [c] => c
  | c :: rest => c ++ ' ' :: joinSpace rest

/-- `'\n\n'.join`: paragraph joining. -/
def joinParas : List String → String
  | [] => ""
  | [p] => p
  | p :: rest => p ++ "\n\n" ++ joinParas rest

/-- State of the `identifySections` fold: sections finished so far, the
currently open section, the running body-paragraph index, and the id
counter (modelling `generateNodeId`). -/
structure SectionsState where
  sections : List DocumentNode
  currentSection : Option DocumentNode
  currentIndex : Int
  counter : Nat
deriving DecidableEq

/-- Close the open section, as the source does before starting a new one and
at the end of the scan: `endIndex := currentIndex - 1` and `text` rebuilt
from the accumulated content. -/
def closeSection (st : SectionsState) : List DocumentNode :=
  match st.currentSection with
  | none => st.sections
  | some sec =>
    st.sections ++ [{ sec with
        endIndex := st.currentIndex - 1
        text := joinParas sec.content }]

/-- One step of `identifySections` over a paragraph. -/
def identifyStep (maxSummaryLength : Nat)
    (headingPatterns : List (String → Option String))
    (st : SectionsState) (paragraph : String) : SectionsState :=
  let info := analyzeParagraphForSection headingPatterns paragraph
  if info.isHeading then
    { sections := closeSection st
      currentSection := some
        { title := info.title
          nodeId := "id_" ++ toString st.counter
          startIndex := st.currentIndex
          endIndex := st.currentIndex
          summary := generateSummary maxSummaryLength [paragraph]
          content := [paragraph]
          text := paragraph
          level := info.level }
      currentIndex := st.currentIndex
      counter := st.counter + 1 }
  else
    match st.currentSection with
    | some sec =>
      { st with
          currentSection := some { sec with content := sec.content ++ [paragraph] }
          currentIndex := st.currentIndex + 1 }
    | none =>
      { sections := st.sections ++
          [{ title := "Section " ++ toString (st.sections.length + 1)
             nodeId := "id_" ++ toString st.counter
             startIndex := st.currentIndex
             endIndex := st.currentIndex
             summary := generateSummary maxSummaryLength [paragraph]
             content := [paragraph]
             text := paragraph
             level := 1 }]
        currentSection := none
        currentIndex := st.currentIndex + 1
        counter := st.counter + 1 }

/-- `identifySections`: scan the paragraphs, then close any open section. -/
def identifySections (maxSummaryLength : Nat)
    (headingPatterns : List (String → Option String))
    (paragraphs : List String) : List DocumentNode :=
  closeSection (paragraphs.foldl (identifyStep maxSummaryLength headingPatterns)
    { sections := [], currentSection := none, currentIndex := 0, counter := 0 })

/-- `buildHierarchy`: take a section, absorb the following run of strictly
deeper sections as its (recursively built) children, and continue after the
run.  `fuel ≥ sections.length` reproduces the source's recursion exactly. -/
def buildHierarchy : Nat → List DocumentNode → Nat → List TreeNode
  | 0, _, _ => []
  | _ + 1, [], _ => []
  | fuel + 1, s :: rest, minLevel =>
    let lvl := jsOrNat s.level minLevel
    let childrenSections := rest.takeWhile (fun t => lvl < t.level)
    let remaining := rest.drop childrenSections.length
    { nodeId := s.nodeId
      title := s.title
      summary := s.summary
      text := some (if s.text.data ≠ [] then s.text else joinParas s.content)
      startIndex := s.startIndex
      endIndex := s.endIndex
      children := buildHierarchy fuel childrenSections (minLevel + 1) } ::
      buildHierarchy fuel remaining minLevel

/-- `buildNodes`: a synthetic root spanning all sections, whose children are
the built hierarchy; an empty section list yields no nodes at all. -/
def buildNodes (maxSummaryLength : Nat) (sections : List DocumentNode)
    (title : String) : List TreeNode :=
  if sections = [] then []
  else
    [{ nodeId := "id_root"
       title := title
       summary := generateSummary maxSummaryLength
         (sections.flatMap (fun s => s.content))
       text := some (joinParas (sections.flatMap (fun s => s.content)))
       startIndex := 0
       endIndex := (sections.length : Int) - 1
       children := buildHierarchy sections.length sections 0 }]

/-- `TreeGenerator.generateTree` (default configuration:
`maxSummaryLength = 200`, no custom heading patterns unless supplied). -/
def generateTree (headingPatterns : List (String → Option String))
    (content title : String) : TreeIndex :=
  let paragraphs := splitIntoParagraphs content
  let sections := identifySections 200 headingPatterns paragraphs
  { title := title, nodes := buildNodes 200 sections title }

end TreeGenerator

namespace GraphIndexer

/-- `GraphIndexerConfig` after merging with `DEFAULT_CONFIG` (the
constructor spreads the defaults, so every field is present). -/
structure Config where
  maxDepth : ℚ
  maxResults : Nat
  enableCrossReferences : Bool
  precomputeRelationships : Bool
  minEdgeWeight : ℚ

/-- `DEFAULT_CONFIG` of `GraphIndexer`. -/
def defaultConfig : Config :=
  { maxDepth := 3, maxResults := 10, enableCrossReferences := true,
    precomputeRelationships := true, minEdgeWeight := 0.1 }

/-- `replace(/[^\w\s]/g, ' ')`. -/
def replaceNonWord (cs : List Char) : List Char :=
  cs.map (fun c => if isWordChar c || c.isWhitespace then c else ' ')

/-- `extractKeywords`: lower-case, strip punctuation, keep tokens longer
than 3 characters, first 10. -/
def extractKeywords (text : String) : List String :=
  (((jsSplitWs (replaceNonWord (lowerChars text.data))).filter
      (fun w => 3 < w.length)).take 10).map String.mk

/-- `GraphIndexer.generateSummary` (fixed 200-character bound). -/
def generateSummary (content : List String) : String :=
  TreeGenerator.generateSummary 200 content

/-- `createGraphNodes`, section-node part: one `section` node per
heading-classified paragraph; `i` is the paragraph index, `c` the id
counter. -/
def mkSectionNodes : List String → Int → Nat → List GraphNode
  | [], _, _ => []
  | p :: rest, i, c =>
    let info := analyzeParagraph p
    if info.isSection then
      { nodeId := "node_" ++ toString c
        title := info.title
        content := p
        summary := generateSummary [p]
        type := "section"
        position := { start := i, «end» := i }
        metadata := { level := some info.level,
                      keywords := some (extractKeywords p),
                      centrality := none } } :: mkSectionNodes rest (i + 1) (c + 1)
    else mkSectionNodes rest (i + 1) c

/-- `createGraphNodes`: a `document` root over the whole text plus the
section nodes. -/
def createGraphNodes (paragraphs : List String) (title : String) :
    List GraphNode :=
  { nodeId := "node_0"
    title := title
    content := TreeGenerator.joinParas paragraphs
    summary := generateSummary paragraphs
    type := "document"
    position := { start := 0, «end» := (paragraphs.length : Int) - 1 }
    metadata := { level := some 0, keywords := none, centrality := none } } ::
    mkSectionNodes paragraphs 0 1

/-- `GraphIndexer.calculateSemanticSimilarity`: Jaccard-style similarity of
the two keyword lists (duplicates in the first list are counted by the
`filter`-based intersection; the union is deduplicated). -/
def calculateSemanticSimilarity (node1 node2 : GraphNode) : ℚ :=
  let keywords1 := node1.metadata.keywords.getD []
  let keywords2 := node2.metadata.keywords.getD []
  if keywords1.isEmpty || keywords2.isEmpty then 0
  else
    let intersection := keywords1.filter (fun k => keywords2.contains k)
    let union := jsDedup (keywords1 ++ keywords2)
    (intersection.length : ℚ) / (union.length : ℚ)

/-- The `i < j` double loop over the non-root nodes. -/
def allPairs {α : Type} : List α → List (α × α)
  | [] => []
  | x :: xs => xs.map (fun y => (x, y)) ++ allPairs xs

/-- `identifyRelationships`: with cross-references disabled the function
returns the empty edge list before building anything (parent-child edges
included); otherwise one weight-0.8 `parent-child` edge from the root to
every section node, plus a `semantic` edge for every pair of non-root nodes
whose keyword similarity strictly exceeds `minEdgeWeight`. -/
def identifyRelationships (cfg : Config) (nodes : List GraphNode) :
    List GraphEdge :=
  if !cfg.enableCrossReferences then []
  else
    match nodes with
    | [] => []
    | root :: rest =>
      (rest.filterMap (fun child =>
        if child.type = "section" then
          some { fromId := root.nodeId, toId := child.nodeId,
                 weight := 0.8, type := "parent-child" }
        else none)) ++
      ((allPairs rest).filterMap (fun pair =>
        let weight := calculateSemanticSimilarity pair.1 pair.2
        if cfg.minEdgeWeight < weight then
          some { fromId := pair.1.nodeId, toId := pair.2.nodeId,
                 weight := weight, type := "semantic" }
        else none))

/-- `calculateNodeCentrality`: normalized degree `min(connections/10, 1)`. -/
def calculateNodeCentrality (nodeId : String) (edges : List GraphEdge) : ℚ :=
  let connections := edges.filter (fun e => e.fromId = nodeId ∨ e.toId = nodeId)
  min ((connections.length : ℚ) / 10) 1

/-- `precomputeNodeRelationships`: store each node's centrality in its
metadata. -/
def precomputeNodeRelationships (nodes : List GraphNode)
    (edges : List GraphEdge) : List GraphNode :=
  nodes.map (fun n =>
    { n with metadata :=
        { n.metadata with centrality := some (calculateNodeCentrality n.nodeId edges) } })

/-- `GraphIndexer.index`: split, build nodes, build edges, optionally
precompute centrality. -/
def index (cfg : Config) (content title : String) : GraphIndex :=
  let paragraphs := splitIntoParagraphs content
  let nodes := createGraphNodes paragraphs title
  let edges := identifyRelationships cfg nodes
  let nodes' := if cfg.precomputeRelationships then
      precomputeNodeRelationships nodes edges
    else nodes
  { title := title, nodes := nodes', edges := edges }

/-- A record returned by `retrieveContent`. -/
structure RetrievedRecord where
  nodeId : String
  title : String
  content : String
  summary : String
deriving DecidableEq

/-- `GraphIndexer.retrieveContent`: look each id up, `filter(Boolean)` the
misses away, and project the found nodes. -/
def retrieveContent (graph : GraphIndex) (nodeIds : List String) :
    List RetrievedRecord :=
  ((nodeIds.map (fun id => graph.nodes.find? (fun n => n.nodeId = id))).filterMap
      (fun o => o)).map
    (fun node => { nodeId := node.nodeId, title := node.title,
                   content := node.content, summary := node.summary })

end GraphIndexer

/-- `' → '.join` for the reasoning strings. -/
def joinArrowTitles : List String → String
  | [] => ""
  | [t] => t
  | t :: rest => t ++ " → " ++ joinArrowTitles rest

/-- An upper bound on the number of worklist iterations a `findBoundedPaths`
run can perform: every processed item has a fresh signature of a
duplicate-free path, so the total work is bounded by the number of
duplicate-free node sequences plus the skipped entries. -/
def searchFuel (graph : GraphIndex) (sourceNodeIds : List String) : Nat :=
  (graph.nodes.length + 1).factorial *
    (graph.edges.length + graph.nodes.length + sourceNodeIds.length + 2) + 1

namespace BMSSPAlgorithm

/-- Worklist entry of the plain variant. -/
structure QueueItem where
  nodeId : String
  distance : ℚ
  path : List String
  visited : List String

/-- `getValidNeighbors`: outgoing then reverse edges whose weight reaches
`minWeight`, excluding already-visited endpoints. -/
def getValidNeighbors (nodeId : String) (graph : GraphIndex)
    (visited : List String) (minWeight : ℚ) : List (String × ℚ) :=
  (graph.edges.filterMap (fun e =>
    if e.fromId = nodeId ∧ e.toId ∉ visited ∧ minWeight ≤ e.weight then
      some (e.toId, e.weight)
    else none)) ++
  (graph.edges.filterMap (fun e =>
    if e.toId = nodeId ∧ e.fromId ∉ visited ∧ minWeight ≤ e.weight then
      some (e.fromId, e.weight)
    else none))

/-- `BMSSPAlgorithm.calculatePathScore`: 0.7 × average found-edge weight
plus 0.3 × average node centrality (missing nodes score 0, a stored or
missing centrality of 0 becomes 0.5 through `|| 0.5`), capped at 1. -/
def calculatePathScore (path : List String) (graph : GraphIndex) : ℚ :=
  if path.length < 2 then 0
  else
    let edgeWeightSum := ((path.zip path.tail).map (fun pr =>
      match graph.edges.find? (fun e =>
          (e.fromId = pr.1 ∧ e.toId = pr.2) ∨ (e.fromId = pr.2 ∧ e.toId = pr.1)) with
      | some e => e.weight
      | none => 0)).sum
    let nodeScores := path.map (fun nodeId =>
      match graph.nodes.find? (fun n => n.nodeId = nodeId) with
      | some n => jsOrRat n.metadata.centrality 0.5
      | none => 0)
    let avgNodeScore := nodeScores.sum / (nodeScores.length : ℚ)
    min ((edgeWeightSum / ((path.length : ℚ) - 1)) * 0.7 + avgNodeScore * 0.3) 1

/-- `generatePathReasoning`. -/
def generatePathReasoning (path : List String) (graph : GraphIndex) : String :=
  if path.length = 0 then "No path found"
  else
    let nodeTitles := path.map (fun nodeId =>
      match graph.nodes.find? (fun n => n.nodeId = nodeId) with
      | some n => n.title
      | none => "Unknown")
    if path.length = 1 then
      "Found relevant section: \"" ++ nodeTitles.headD "" ++ "\""
    else if path.length = 2 then
      "Connected related sections: \"" ++ nodeTitles.headD "" ++ "\" and \"" ++
        (nodeTitles.getD 1 "") ++ "\""
    else
      "Found connected path through sections: " ++ joinArrowTitles nodeTitles

/-- The `while` loop of the plain `findBoundedPaths`: sort by distance, pop,
skip beyond `maxDepth`, deduplicate by path signature, record paths of
length > 1, enqueue unvisited neighbors. -/
def loop (graph : GraphIndex) (maxDepth : ℚ) (maxResults : Nat)
    (minEdgeWeight : ℚ) :
    Nat → List QueueItem → List String → List PathResult → List PathResult
  | 0, _, _, results => results
  | fuel + 1, queue, visitedPaths, results =>
    if queue.isEmpty ∨ maxResults ≤ results.length then results
    else
      match sortIns (fun a b => decide (a.distance ≤ b.distance)) queue with
      | [] => results
      | current :: rest =>
        if maxDepth < current.distance then
          loop graph maxDepth maxResults minEdgeWeight fuel rest visitedPaths results
        else
          let pathSignature := arrowJoin current.path
          if pathSignature ∈ visitedPaths then
            loop graph maxDepth maxResults minEdgeWeight fuel rest visitedPaths results
          else
            let results' := if 1 < current.path.length then
                results ++ [{ nodeIds := current.path
                              distance := current.distance
                              pathScore := calculatePathScore current.path graph
                              reasoning := generatePathReasoning current.path graph }]
              else results
            let neighbors := getValidNeighbors current.nodeId graph
              current.visited minEdgeWeight
            let newItems := neighbors.filterMap (fun nb =>
              if nb.1 ∉ current.visited then
                some { nodeId := nb.1
                       distance := current.distance + nb.2
                       path := current.path ++ [nb.1]
                       visited := current.visited ++ [nb.1] }
              else none)
            loop graph maxDepth maxResults minEdgeWeight fuel (rest ++ newItems)
              (pathSignature :: visitedPaths) results'

/-- `BMSSPAlgorithm.findBoundedPaths`: seed one entry per source node found
in the graph, run the bounded search, then sort the results by path score
descending and truncate to `maxResults`. -/
def findBoundedPaths (graph : GraphIndex) (sourceNodeIds : List String)
    (options : BMSSPOptions) : List PathResult :=
  let maxDepth := options.maxDepth.getD 3
  let maxResults := options.maxResults.getD 10
  let minEdgeWeight := options.minEdgeWeight.getD 0.1
  let queue := sourceNodeIds.filterMap (fun sourceId =>
    if (graph.nodes.find? (fun n => n.nodeId = sourceId)).isSome then
      some { nodeId := sourceId, distance := 0, path := [sourceId],
             visited := [sourceId] }
    else none)
  let results := loop graph maxDepth maxResults minEdgeWeight
    (searchFuel graph sourceNodeIds) queue [] []
  (sortIns (fun a b => decide (b.pathScore ≤ a.pathScore)) results).take maxResults

end BMSSPAlgorithm

namespace OptimizedBMSSPAlgorithm

/-- Worklist entry of the selective variant. -/
structure OptimizedQueueItem where
  nodeId : String
  distance : ℚ
  path : List String
  visited : List String
  activationScore : ℚ
  parentScore : ℚ

/-- The queue comparator: higher activation score first, ties broken by
lower cumulative distance. -/
def queueCmp (a b : OptimizedQueueItem) : Bool :=
  if a.activationScore = b.activationScore then decide (a.distance ≤ b.distance)
  else decide (b.activationScore < a.activationScore)

/-- `OptimizedBMSSPAlgorithm.calculateSemanticSimilarity` (differs from the
indexer's: the union length is guarded by `Math.max(·, 1)`). -/
def calculateSemanticSimilarity (node1 node2 : GraphNode) : ℚ :=
  let keywords1 := node1.metadata.keywords.getD []
  let keywords2 := node2.metadata.keywords.getD []
  if keywords1.isEmpty || keywords2.isEmpty then 0
  else
    let intersection := keywords1.filter (fun k => keywords2.contains k)
    let union := jsDedup (keywords1 ++ keywords2)
    (intersection.length : ℚ) / (max (union.length : ℚ) 1)

/-- `calculateNodeActivationScore`: weighted sum of centrality (`|| 0.5`,
so an absent *or zero* centrality contributes 0.5), maximal keyword
similarity to a source node, keyword presence, node type, and position,
capped at 1. -/
def calculateNodeActivationScore (node : GraphNode)
    (sourceNodeIds : List String) (graph : GraphIndex) : ℚ :=
  let centrality := jsOrRat node.metadata.centrality 0.5
  let sourceNodes := graph.nodes.filter (fun n => sourceNodeIds.contains n.nodeId)
  let semanticSimilarity :=
    if sourceNodes.isEmpty then 0
    else listMax (sourceNodes.map (fun source =>
      calculateSemanticSimilarity node source))
  let keywordRelevance := if (node.metadata.keywords.getD []).length ≠ 0 then
      (0.4 : ℚ)
    else 0
  let typeWeight := if node.type = "section" then (0.8 : ℚ) else 0.3
  let positionWeight := max 0.7 (1 - (node.position.start : ℚ) * 0.1)
  let combinedScore :=
    centrality * 0.25 + semanticSimilarity * 0.3 + keywordRelevance * 0.15 +
      typeWeight * 0.15 + positionWeight * 0.15
  min combinedScore 1

/-- `getValidNeighborsWithSelectiveActivation`: both edge directions, edge
weight at least the dynamic threshold
`max(minWeight, 0.7 − parentActivationScore × 0.4)`, sorted by weight
descending. -/
def getValidNeighborsWithSelectiveActivation (nodeId : String)
    (graph : GraphIndex) (visited : List String) (minWeight : ℚ)
    (parentActivationScore : ℚ) : List (String × ℚ) :=
  let dynamicThreshold := max minWeight (0.7 - parentActivationScore * 0.4)
  sortIns (fun a b => decide (b.2 ≤ a.2))
    ((graph.edges.filterMap (fun e =>
      if e.fromId = nodeId ∧ e.toId ∉ visited ∧ dynamicThreshold ≤ e.weight then
        some (e.toId, e.weight)
      else none)) ++
    (graph.edges.filterMap (fun e =>
      if e.toId = nodeId ∧ e.fromId ∉ visited ∧ dynamicThreshold ≤ e.weight then
        some (e.fromId, e.weight)
      else none)))

/-- `OptimizedBMSSPAlgorithm.calculatePathScore` (divisors guarded by
`Math.max(·, 1)`, unlike the plain variant). -/
def calculatePathScore (path : List String) (graph : GraphIndex) : ℚ :=
  if path.length < 2 then 0
  else
    let edgeWeightSum := ((path.zip path.tail).map (fun pr =>
      match graph.edges.find? (fun e =>
          (e.fromId = pr.1 ∧ e.toId = pr.2) ∨ (e.fromId = pr.2 ∧ e.toId = pr.1)) with
      | some e => e.weight
      | none => 0)).sum
    let nodeScores := path.map (fun nodeId =>
      match graph.nodes.find? (fun n => n.nodeId = nodeId) with
      | some n => jsOrRat n.metadata.centrality 0.5
      | none => 0)
    let avgNodeScore := nodeScores.sum / (max (nodeScores.length : ℚ) 1)
    min ((edgeWeightSum / (max ((path.length : ℚ) - 1) 1)) * 0.7 +
      avgNodeScore * 0.3) 1

/-- `generatePathReasoning` (same text as the plain variant's). -/
def generatePathReasoning (path : List String) (graph : GraphIndex) : String :=
  BMSSPAlgorithm.generatePathReasoning path graph

/-- The neighbor-expansion block of the selective variant's main loop
(lines: for each valid unvisited neighbor, propagate
`base × edgeWeight × parentActivation` and enqueue only when the propagated
activation score reaches the 0.15 floor). -/
def expandEntry (graph : GraphIndex) (sourceNodeIds : List String)
    (minEdgeWeight : ℚ) (current : OptimizedQueueItem) :
    List OptimizedQueueItem :=
  let neighbors := getValidNeighborsWithSelectiveActivation current.nodeId
    graph current.visited minEdgeWeight current.activationScore
  neighbors.filterMap (fun neighbor =>
    if neighbor.1 ∉ current.visited then
      let baseScore := match graph.nodes.find? (fun n => n.nodeId = neighbor.1) with
        | some neighborNode =>
          calculateNodeActivationScore neighborNode sourceNodeIds graph
        | none => 0.5
      let activationScore := baseScore * neighbor.2 * current.activationScore
      if 0.15 ≤ activationScore then
        some { nodeId := neighbor.1
               distance := current.distance + neighbor.2
               path := current.path ++ [neighbor.1]
               visited := current.visited ++ [neighbor.1]
               activationScore := activationScore
               parentScore := current.activationScore }
      else none
    else none)

/-- `Set.add` on the activated-node set. -/
def addUniq (s : List String) (x : String) : List String :=
  if x ∈ s then s else s ++ [x]

/-- The `while` loop of the selective `findBoundedPaths`: sort by activation
score then distance, pop, skip entries beyond `maxDepth` or below the 0.25
activation floor, deduplicate by path signature, record paths of length
> 1, and enqueue the selectively expanded neighbors.  Returns the results
and the activated-node set. -/
def loop (graph : GraphIndex) (sourceNodeIds : List String) (maxDepth : ℚ)
    (maxResults : Nat) (minEdgeWeight : ℚ) :
    Nat → List OptimizedQueueItem → List String → List PathResult →
      List String → List PathResult × List String
  | 0, _, _, results, acts => (results, acts)
  | fuel + 1, queue, visitedPaths, results, acts =>
    if queue.isEmpty ∨ maxResults ≤ results.length then (results, acts)
    else
      match sortIns queueCmp queue with
      | [] => (results, acts)
      | current :: rest =>
        if maxDepth < current.distance ∨ current.activationScore < 0.25 then
          loop graph sourceNodeIds maxDepth maxResults minEdgeWeight fuel rest
            visitedPaths results acts
        else
          let pathSignature := arrowJoin current.path
          if pathSignature ∈ visitedPaths then
            loop graph sourceNodeIds maxDepth maxResults minEdgeWeight fuel rest
              visitedPaths results acts
          else
            let results' := if 1 < current.path.length then
                results ++ [{ nodeIds := current.path
                              distance := current.distance
                              pathScore := calculatePathScore current.path graph
                              reasoning := generatePathReasoning current.path graph }]
              else results
            let newItems := expandEntry graph sourceNodeIds minEdgeWeight current
            loop graph sourceNodeIds maxDepth maxResults minEdgeWeight fuel
              (rest ++ newItems) (pathSignature :: visitedPaths) results'
              (newItems.foldl (fun s item => addUniq s item.nodeId) acts)

/-- Return record of the selective variant. -/
structure BoundedPathsResult where
  paths : List PathResult
  activatedNodeCount : Nat

/-- `OptimizedBMSSPAlgorithm.findBoundedPaths`: seed one entry per source
node found in the graph (activation from its own relevance factors,
`parentScore = 1`), run the selective search, sort the results by path
score descending and truncate to `maxResults`.  (The activation-rate
`console.log` is output-only and not modelled.) -/
def findBoundedPaths (graph : GraphIndex) (sourceNodeIds : List String)
    (options : BMSSPOptions) : BoundedPathsResult :=
  let maxDepth := options.maxDepth.getD 3
  let maxResults := options.maxResults.getD 10
  let minEdgeWeight := options.minEdgeWeight.getD 0.1
  let queue := sourceNodeIds.filterMap (fun sourceId =>
    if (graph.nodes.find? (fun n => n.nodeId = sourceId)).isSome then
      some { nodeId := sourceId
             distance := 0
             path := [sourceId]
             visited := [sourceId]
             activationScore := match graph.nodes.find? (fun n => n.nodeId = sourceId) with
               | some sourceNode =>
                 calculateNodeActivationScore sourceNode sourceNodeIds graph
               | none => 0
             parentScore := 1 }
    else none)
  let acts0 := queue.foldl (fun s item => addUniq s item.nodeId) []
  let st := loop graph sourceNodeIds maxDepth maxResults minEdgeWeight
    (searchFuel graph sourceNodeIds) queue [] [] acts0
  { paths := (sortIns (fun a b => decide (b.pathScore ≤ a.pathScore)) st.1).take
      maxResults
    activatedNodeCount := st.2.length }

end OptimizedBMSSPAlgorithm

/-- `' '.join`. -/
def joinSpaceList : List String → String
  | [] => ""
  | [s] => s
  | s :: rest => s ++ " " ++ joinSpaceList rest

namespace SimpleSearch

/-- `SimpleSearch.tokenize`: lower-case, strip punctuation to spaces, split
on whitespace, keep tokens longer than one character. -/
def tokenize (text : String) : List String :=
  ((jsSplitWs (GraphIndexer.replaceNonWord (lowerChars text.data))).filter
    (fun w => 1 < w.length)).map String.mk

/-- `SimpleSearch.flattenTree`: depth-first list of all tree nodes. -/
def flattenTree : List TreeNode → List TreeNode
  | [] => []
  | n :: rest => n :: (flattenTree n.children ++ flattenTree rest)
termination_by l => sizeOf l
decreasing_by
  · cases n
    simp only [List.cons.sizeOf_spec, TreeNode.mk.sizeOf_spec]
    omega
  · simp only [List.cons.sizeOf_spec]
    omega

/-- The per-query-term accumulation step of `scoreNode`'s `for` loop. -/
def scoreStep (titleTerms summaryTerms textTerms : List String)
    (lowerTitle : List Char) (score : ℚ) (queryTerm : String) : ℚ :=
  let score := if titleTerms.contains queryTerm then score + 10 else score
  let score := if listInfix queryTerm.data lowerTitle then score + 5 else score
  let score := score + ((summaryTerms.filter (fun t => t = queryTerm)).length : ℚ) * 2
  score + min (((textTerms.filter (fun t => t = queryTerm)).length : ℚ) * 0.5) 5

/-- `SimpleSearch.scoreNode`: keyword scoring of one tree node, with the
flat phrase bonus added after the loop. -/
def scoreNode (node : TreeNode) (queryTerms : List String) : ℚ :=
  let titleTerms := tokenize node.title
  let summaryTerms := tokenize node.summary
  let textTerms := match node.text with
    | some t => tokenize t
    | none => []
  let score := queryTerms.foldl
    (scoreStep titleTerms summaryTerms textTerms (lowerChars node.title.data)) 0
  let queryPhrase := joinSpaceList queryTerms
  if listInfix queryPhrase.data (lowerChars node.title.data) then score + 15
  else score

/-- `SimpleSearch.search`, reduced to the returned node-id list (the
human-readable `thinking` string and the wall-clock timing are
presentation-only and not modelled): score every node, keep the strictly
positive ones, sort by score descending, truncate to `maxResults`. -/
def search (maxResults : Nat) (tree : TreeIndex) (query : String) :
    List String :=
  let queryTerms := tokenize query
  let allNodes := flattenTree tree.nodes
  let scoredNodes := allNodes.map (fun node => (node, scoreNode node queryTerms))
  let topNodes := (sortIns (fun a b => decide (b.2 ≤ a.2))
    (scoredNodes.filter (fun s => 0 < s.2))).take maxResults
  topNodes.map (fun s => s.1.nodeId)

/-- The keyword-scoring formula exactly as the specification words it
(claim C7), written as a per-term sum: 10 per exact title-token match, 5
per substring containment in the lower-cased title, 2 per summary-token
occurrence, 0.5 per full-text occurrence capped at 5 per query term, plus
a flat 15 when the lower-cased title contains the space-joined query
phrase.  It exists alongside `scoreNode` as the specification-side half of
the refinement comparison. -/
def specScoreNode (node : TreeNode) (queryTerms : List String) : ℚ :=
  let titleTerms := tokenize node.title
  let summaryTerms := tokenize node.summary
  let textTerms := match node.text with
    | some t => tokenize t
    | none => []
  ((queryTerms.map (fun qt =>
      (if titleTerms.contains qt then (10 : ℚ) else 0) +
      (if listInfix qt.data (lowerChars node.title.data) then (5 : ℚ) else 0) +
      2 * ((summaryTerms.filter (fun t => t = qt)).length : ℚ) +
      min (0.5 * ((textTerms.filter (fun t => t = qt)).length : ℚ)) 5)).sum) +
    (if listInfix (joinSpaceList queryTerms).data (lowerChars node.title.data) then
      (15 : ℚ)
    else 0)

/-- The search pipeline as the specification words it (claim C7): exactly
the strictly-positively-scored nodes, ordered by score descending, and
truncated to `maxResults`; specification-side half of the refinement
comparison. -/
def specSearch (maxResults : Nat) (tree : TreeIndex) (query : String) :
    List String :=
  let queryTerms := tokenize query
  let allNodes := flattenTree tree.nodes
  let positive := (allNodes.map (fun node => (node, specScoreNode node queryTerms))).filter
    (fun s => 0 < s.2)
  ((sortIns (fun a b => decide (b.2 ≤ a.2)) positive).take maxResults).map
    (fun s => s.1.nodeId)

end SimpleSearch

/-! ## Claim formalizations and theorems -/

/-- The start/end index range of a tree node. -/
def rangesOf (n : TreeNode) : Int × Int := (n.startIndex, n.endIndex)

/-- Claim C4's containment: the parent range contains the child range and
strictly (is not equal to it). -/
def properContainsB (p c : TreeNode) : Bool :=
  decide (p.startIndex ≤ c.startIndex) && decide (c.endIndex ≤ p.endIndex) &&
    !(decide (p.startIndex = c.startIndex) && decide (p.endIndex = c.endIndex))

/-- Claim C4's sibling overlap: the two index ranges share a point. -/
def overlapB (a b : TreeNode) : Bool :=
  decide (max a.startIndex b.startIndex ≤ min a.endIndex b.endIndex)

/-- No two listed siblings overlap. -/
def pairwiseDisjointB : List TreeNode → Bool
  | [] => true
  | n :: rest => rest.all (fun m => !overlapB n m) && pairwiseDisjointB rest

/-- Claim C4's invariant, checked down to depth `fuel`: every node strictly
contains each child's range and its children are pairwise non-overlapping.
For `fuel` at least the tree depth this decides the claim's property. -/
def nodeRangeOkB : Nat → TreeNode → Bool
  | 0, _ => true
  | fuel + 1, n =>
    n.children.all (properContainsB n) && pairwiseDisjointB n.children &&
      n.children.all (nodeRangeOkB fuel)

/-- Claim C4's invariant over a root list. -/
def treeRangeOkB (fuel : Nat) (roots : List TreeNode) : Bool :=
  roots.all (nodeRangeOkB fuel)

/-- A string all of whose characters are whitespace (the empty string
included). -/
def wsOnly (s : String) : Prop := ∀ c ∈ s.data, c.isWhitespace = true

/-- Set-Jaccard similarity of two keyword lists, as the specification words
it: |A ∩ B| / |A ∪ B| on the underlying sets (0 when the union is empty);
specification-side half of the claim-C6 refinement comparison. -/
def jaccardSetSimilarity (kw1 kw2 : List String) : ℚ :=
  let union := jsDedup (kw1 ++ kw2)
  if union.isEmpty then 0
  else (((jsDedup kw1).filter (fun k => kw2.contains k)).length : ℚ) /
    (union.length : ℚ)

/-- The activation-score formula exactly as the specification words it
(claim C6): centrality×0.25 + (max set-Jaccard keyword similarity to any
source node)×0.30 + (0.4 if the node has keywords else 0)×0.15 + (0.8 for
`section` nodes else 0.3)×0.15 + max(0.7, 1 − start×0.1)×0.15, clamped to
[0, 1]; specification-side half of the refinement comparison. -/
def specActivationScore (node : GraphNode) (sourceNodeIds : List String)
    (graph : GraphIndex) : ℚ :=
  let sourceNodes := graph.nodes.filter (fun n => sourceNodeIds.contains n.nodeId)
  let maxJaccard :=
    if sourceNodes.isEmpty then 0
    else listMax (sourceNodes.map (fun source =>
      jaccardSetSimilarity (node.metadata.keywords.getD [])
        (source.metadata.keywords.getD [])))
  let keywordScore := if (node.metadata.keywords.getD []) ≠ [] then (0.4 : ℚ) else 0
  let typeScore := if node.type = "section" then (0.8 : ℚ) else 0.3
  let posScore := max 0.7 (1 - (node.position.start : ℚ) * 0.1)
  min (max (node.metadata.centrality.getD 0 * 0.25 + maxJaccard * 0.3 +
    keywordScore * 0.15 + typeScore * 0.15 + posScore * 0.15) 0) 1

/-- The candidate node of the C6 counterexample: centrality stored as 0
(inside the claimed range [0, 1]). -/
def c6Node : GraphNode :=
  { nodeId := "node_1", title := "Alpha", content := "Alpha", summary := "Alpha",
    type := "section", position := { start := 0, «end» := 0 },
    metadata := { level := some 1, keywords := some ["alpha"],
                  centrality := some 0 } }

/-- Single-node graph for the C6 counterexample. -/
def c6Graph : GraphIndex := { title := "T", nodes := [c6Node], edges := [] }

/-- The C6 witness node: centrality 3/5 (nonzero, in (0, 1]). -/
def c6NodeW : GraphNode :=
  { nodeId := "node_1", title := "Alpha", content := "Alpha", summary := "Alpha",
    type := "section", position := { start := 0, «end» := 0 },
    metadata := { level := some 1, keywords := some ["alpha"],
                  centrality := some (3 / 5) } }

/-- The centrality lookup performed for every path node inside both
`calculatePathScore`s (`find?` then `centrality || 0.5`, and 0 for a node
id that is not in the graph). -/
def pathNodeCentrality (graph : GraphIndex) (nodeId : String) : ℚ :=
  match graph.nodes.find? (fun n => n.nodeId = nodeId) with
  | some n => jsOrRat n.metadata.centrality 0.5
  | none => 0

/-- C8 counterexample graph: a single `section` node. -/
def c8Graph : GraphIndex :=
  { title := "T"
    nodes := [{ nodeId := "node_1", title := "Alpha", content := "Alpha body",
                summary := "Alpha body", type := "section",
                position := { start := 0, «end» := 0 },
                metadata := { level := some 1, keywords := some ["alpha"],
                              centrality := some (1 / 2) } }]
    edges := [] }

/-- C2 witness graph: two nodes joined by a weight-4/5 edge. -/
def c2Graph : GraphIndex :=
  { title := "T"
    nodes :=
      [{ nodeId := "n1", title := "A", content := "A", summary := "A",
         type := "section", position := { start := 0, «end» := 0 },
         metadata := { level := some 1, keywords := some ["alpha"],
                       centrality := some (1 / 2) } },
       { nodeId := "n2", title := "B", content := "B", summary := "B",
         type := "section", position := { start := 1, «end» := 1 },
         metadata := { level := some 1, keywords := some ["beta"],
                       centrality := some (1 / 2) } }]
    edges := [{ fromId := "n1", toId := "n2", weight := 4 / 5,
                type := "parent-child" }] }

/-- C2 witness worklist entry (activation score 1/2 ≥ 0.25; high enough
that the neighbor's propagated score clears the 0.15 enqueue floor, so the
expansion is non-empty). -/
def c2Cur : OptimizedBMSSPAlgorithm.OptimizedQueueItem :=
  { nodeId := "n1", distance := 0, path := ["n1"], visited := ["n1"],
    activationScore := 1 / 2, parentScore := 1 }

/-- C10 witness entry: activation score 1/5, inside [0.15, 0.25). -/
def c10Cur : OptimizedBMSSPAlgorithm.OptimizedQueueItem :=
  { nodeId := "n1", distance := 0, path := ["n1"], visited := ["n1"],
    activationScore := 1 / 5, parentScore := 1 }

/-- Claim C1's output contract for a returned path list: pairwise distinct
node-id sequences, every path of length ≥ 2, every distance within
`maxDepth`, sorted by path score non-increasing, at most `maxResults`
entries. -/
def soundPathList (results : List PathResult) (maxDepth : ℚ)
    (maxResults : Nat) : Prop :=
  results.Pairwise (fun a b => a.nodeIds ≠ b.nodeIds) ∧
  (∀ r ∈ results, 2 ≤ r.nodeIds.length) ∧
  (∀ r ∈ results, r.distance ≤ maxDepth) ∧
  results.Pairwise (fun a b => b.pathScore ≤ a.pathScore) ∧
  results.length ≤ maxResults

/-- Loop invariant of both `findBoundedPaths` variants: every accumulated
result has length ≥ 2, distance within bound, and a signature recorded in
the visited-path set, and the recorded signatures are pairwise distinct. -/
def resInv (maxDepth : ℚ) (vp : List String)
    (results : List PathResult) : Prop :=
  (∀ r ∈ results, 2 ≤ r.nodeIds.length ∧ r.distance ≤ maxDepth ∧
    arrowJoin r.nodeIds ∈ vp) ∧
  results.Pairwise (fun a b => arrowJoin a.nodeIds ≠ arrowJoin b.nodeIds)


/-! ## Theorems -/

theorem insertLe_perm {α : Type} (le : α → α → Bool) (a : α) (l : List α) :
    (insertLe le a l).Perm (a :: l) := by
  induction l with
  | nil => simp [insertLe]
  | cons b bs ih =>
    simp only [insertLe]
    by_cases h : le a b = true
    · simp [h]
    · simp only [h]
      simp only [Bool.false_eq_true, if_false]
      exact ((ih.cons b).trans (List.Perm.swap a b bs))

theorem sortIns_perm {α : Type} (le : α → α → Bool) (l : List α) :
    (sortIns le l).Perm l := by
  induction l with
  | nil => simp [sortIns]
  | cons a as ih =>
    exact (insertLe_perm le a (sortIns le as)).trans (ih.cons a)

theorem mem_sortIns {α : Type} (le : α → α → Bool) (l : List α) (x : α) :
    x ∈ sortIns le l ↔ x ∈ l :=
  (sortIns_perm le l).mem_iff

theorem pairwise_insertLe {α : Type} (le : α → α → Bool)
    (htot : ∀ a b, le a b = true ∨ le b a = true)
    (htrans : ∀ a b c, le a b = true → le b c = true → le a c = true)
    (a : α) (l : List α) (hl : l.Pairwise (fun x y => le x y = true)) :
    (insertLe le a l).Pairwise (fun x y => le x y = true) := by
  induction l with
  | nil => simp [insertLe]
  | cons b bs ih =>
    rcases List.pairwise_cons.mp hl with ⟨hb, hbs⟩
    simp only [insertLe]
    by_cases h : le a b = true
    · simp only [h, if_true]
      refine List.pairwise_cons.mpr ⟨?_, hl⟩
      intro y hy
      rcases List.mem_cons.mp hy with rfl | hy'
      · exact h
      · exact htrans a b y h (hb y hy')
    · simp only [h, Bool.false_eq_true, if_false]
      refine List.pairwise_cons.mpr ⟨?_, ih hbs⟩
      intro y hy
      rcases List.mem_cons.mp (((insertLe_perm le a bs).mem_iff).mp hy) with rfl | hy'
      · rcases htot y b with h' | h'
        · exact absurd h' h
        · exact h'
      · exact hb y hy'

theorem pairwise_sortIns {α : Type} (le : α → α → Bool)
    (htot : ∀ a b, le a b = true ∨ le b a = true)
    (htrans : ∀ a b c, le a b = true → le b c = true → le a c = true)
    (l : List α) : (sortIns le l).Pairwise (fun x y => le x y = true) := by
  induction l with
  | nil => simp [sortIns]
  | cons a as ih => exact pairwise_insertLe le htot htrans a (sortIns le as) ih

/-- C4 (code bug): on `"# A\n\n## B\n\nbody"` the generated tree is a root
with range (0, 1) whose child (the `# A` section) has range (0, −1) and
grandchild (the `## B` section) range (0, 0): because heading paragraphs
never advance the paragraph index counter, the parent's range ends before
its child's range begins, so the claimed containment invariant is false at
every checking depth ≥ 2. -/
theorem c4_tree_range_invariant_violated :
    ((TreeGenerator.generateTree [] "# A\n\n## B\n\nbody" "T").nodes.map
      (fun n => (rangesOf n, n.children.map
        (fun c => (rangesOf c, c.children.map rangesOf))))) =
      [((0, 1), [((0, -1), [(0, 0)])])] ∧
    ∀ (fuel : Nat) (roots : List TreeNode),
      (roots.map (fun n => (rangesOf n, n.children.map
        (fun c => (rangesOf c, c.children.map rangesOf))))) =
        [((0, 1), [((0, -1), [(0, 0)])])] →
      treeRangeOkB (fuel + 2) roots = false := by
  constructor
  · rfl
  · intro fuel roots h
    rcases roots with _ | ⟨r, rest⟩
    · simp at h
    · rcases rest with _ | ⟨r2, rest⟩
      swap
      · simp at h
      · simp only [List.map_cons, List.map_nil, List.cons.injEq, and_true] at h
        have hch : r.children.map (fun c => (rangesOf c, c.children.map rangesOf)) =
            [((0, -1), [(0, 0)])] := congrArg Prod.snd h
        rcases hca : r.children with _ | ⟨a, arest⟩
        · rw [hca] at hch; simp at hch
        · rcases arest with _ | ⟨a2, arest⟩
          swap
          · rw [hca] at hch; simp at hch
          · rw [hca] at hch
            simp only [List.map_cons, List.map_nil, List.cons.injEq, and_true] at hch
            have hastart : a.startIndex = 0 :=
              congrArg Prod.fst (congrArg Prod.fst hch)
            have haend : a.endIndex = -1 :=
              congrArg Prod.snd (congrArg Prod.fst hch)
            have hbch : a.children.map rangesOf = [(0, 0)] := congrArg Prod.snd hch
            rcases hcb : a.children with _ | ⟨b, brest⟩
            · rw [hcb] at hbch; simp at hbch
            · rcases brest with _ | ⟨b2, brest⟩
              swap
              · rw [hcb] at hbch; simp at hbch
              · rw [hcb] at hbch
                simp only [List.map_cons, List.map_nil, List.cons.injEq,
                  and_true] at hbch
                have hbstart : b.startIndex = 0 := congrArg Prod.fst hbch
                have hbend : b.endIndex = 0 := congrArg Prod.snd hbch
                have hfail : properContainsB a b = false := by
                  simp [properContainsB, hastart, haend, hbstart, hbend]
                simp only [treeRangeOkB, List.all_cons, List.all_nil, Bool.and_true]
                show nodeRangeOkB (fuel + 1 + 1) r = false
                simp only [nodeRangeOkB, hca, hcb, List.all_cons, List.all_nil,
                  Bool.and_true, hfail]
                simp

/-- C3 (code bug): the claim (and the config's own documentation, "Enable
cross-references between sections") says `enableCrossReferences = false`
suppresses only semantic edges.  In the code the early return in
`identifyRelationships` precedes the parent-child construction, so the
whole edge list is empty: the indexed document has a `section` node with no
incoming `parent-child` edge at all, while the same text with the flag
enabled yields exactly the root-to-section `parent-child` edge. -/
theorem c3_disabled_crossrefs_drop_parent_child_edges :
    (GraphIndexer.index
      { GraphIndexer.defaultConfig with enableCrossReferences := false }
      "# Alpha\n\nbody text here" "T").edges = [] ∧
    ((GraphIndexer.index
      { GraphIndexer.defaultConfig with enableCrossReferences := false }
      "# Alpha\n\nbody text here" "T").nodes.map (fun n => n.type)) =
      ["document", "section"] ∧
    ((GraphIndexer.index GraphIndexer.defaultConfig
      "# Alpha\n\nbody text here" "T").edges.map
        (fun e => (e.fromId, e.toId, e.type))) =
      [("node_0", "node_1", "parent-child")] :=
  ⟨rfl, rfl, rfl⟩

theorem splitParasAux_ws_pieces :
    ∀ (fuel : Nat) (cs acc : List Char), (∀ c ∈ cs, c.isWhitespace = true) →
      (∀ c ∈ acc, c.isWhitespace = true) →
      ∀ piece ∈ splitParasAux fuel cs acc, ∀ c ∈ piece, c.isWhitespace = true := by
  intro fuel
  induction fuel with
  | zero =>
    intro cs acc hcs hacc piece hp c hc
    simp only [splitParasAux, List.mem_singleton] at hp
    subst hp
    rcases List.mem_append.mp hc with h | h
    · exact hacc c (List.mem_reverse.mp h)
    · exact hcs c h
  | succ fuel ih =>
    intro cs acc hcs hacc piece hp
    rcases cs with _ | ⟨c, rest⟩
    · simp only [splitParasAux, List.mem_singleton] at hp
      subst hp
      intro d hd
      exact hacc d (List.mem_reverse.mp hd)
    · have hcw : c.isWhitespace = true ∨ True := Or.inr trivial
      simp only [splitParasAux] at hp
      by_cases hc : c = '\n'
      · rw [if_pos hc] at hp
        cases hbl : blankLineBreak rest with
        | some rest' =>
          rw [hbl] at hp
          rcases List.mem_cons.mp hp with rfl | hp'
          · intro d hd
            exact hacc d (List.mem_reverse.mp hd)
          · refine ih rest' [] ?_ (by simp) piece hp'
            intro d hd
            have hdk : d ∈ rest := by
              have : rest' = rest.drop
                  ((rest.takeWhile Char.isWhitespace).length - 1 -
                    ((rest.takeWhile Char.isWhitespace).reverse.takeWhile
                      (fun x => x ≠ '\n')).length + 1) := by
                simp only [blankLineBreak] at hbl
                split at hbl
                · exact (Option.some.injEq _ _ ▸ hbl).symm ▸ rfl
                · exact absurd hbl (by simp)
              rw [this] at hd
              exact List.mem_of_mem_drop hd
            exact hcs d (List.mem_cons_of_mem c hdk)
        | none =>
          rw [hbl] at hp
          refine ih rest (c :: acc) ?_ ?_ piece hp
          · intro d hd
            exact hcs d (List.mem_cons_of_mem c hd)
          · intro d hd
            rcases List.mem_cons.mp hd with rfl | hd'
            · exact hcs d (List.mem_cons_self d rest)
            · exact hacc d hd'
      · rw [if_neg hc] at hp
        refine ih rest (c :: acc) ?_ ?_ piece hp
        · intro d hd
          exact hcs d (List.mem_cons_of_mem c hd)
        · intro d hd
          rcases List.mem_cons.mp hd with rfl | hd'
          · exact hcs d (List.mem_cons_self d rest)
          · exact hacc d hd'

theorem trimChars_eq_nil {cs : List Char}
    (h : ∀ c ∈ cs, c.isWhitespace = true) : trimChars cs = [] := by
  unfold trimChars
  rw [List.dropWhile_eq_nil_iff.mpr h]
  simp

/-- Blank-line splitting of an all-whitespace string yields no paragraphs. -/
theorem splitIntoParagraphs_ws {s : String} (h : wsOnly s) :
    splitIntoParagraphs s = [] := by
  unfold splitIntoParagraphs
  rw [List.filter_eq_nil_iff]
  intro p hp
  rcases List.mem_map.mp hp with ⟨piece, hpiece, rfl⟩
  have hws := splitParasAux_ws_pieces s.data.length s.data [] h (by simp)
    piece hpiece
  rw [trimChars_eq_nil hws]
  simp

/-- `identifyRelationships` on a single-node graph builds no edges,
whatever the configuration. -/
theorem identifyRelationships_single (cfg : GraphIndexer.Config)
    (root : GraphNode) :
    GraphIndexer.identifyRelationships cfg [root] = [] := by
  cases h : cfg.enableCrossReferences <;>
    simp [GraphIndexer.identifyRelationships, GraphIndexer.allPairs, h]

/-- C5 counterexample: on the empty input the graph indexer still creates
the `document` root node, so its node list has length 1, not 0 as the
claim states. -/
theorem c5_counterexample_graph_root_node :
    (GraphIndexer.index GraphIndexer.defaultConfig "" "T").nodes.length = 1 ∧
    ¬ ((GraphIndexer.index GraphIndexer.defaultConfig "" "T").nodes.length = 0) := by
  have h1 : (GraphIndexer.index GraphIndexer.defaultConfig "" "T").nodes.length = 1 := rfl
  exact ⟨h1, by rw [h1]; omega⟩

/-- C5 (amended): for every empty or whitespace-only input neither index
construction raises; `generateTree` returns zero nodes, while
`GraphIndexer.index` returns exactly one node — the `document` root — and
no edges. -/
theorem c5_empty_input_amended (s title : String)
    (patterns : List (String → Option String)) (cfg : GraphIndexer.Config)
    (h : wsOnly s) :
    (TreeGenerator.generateTree patterns s title).nodes = [] ∧
    (GraphIndexer.index cfg s title).nodes.length = 1 ∧
    ((GraphIndexer.index cfg s title).nodes.map (fun n => n.type)) =
      ["document"] ∧
    (GraphIndexer.index cfg s title).edges = [] := by
  have hsp := splitIntoParagraphs_ws h
  refine ⟨?_, ?_, ?_, ?_⟩
  · simp [TreeGenerator.generateTree, hsp, TreeGenerator.identifySections,
      TreeGenerator.closeSection, TreeGenerator.buildNodes]
  · cases hpre : cfg.precomputeRelationships <;>
      simp [GraphIndexer.index, hsp, GraphIndexer.createGraphNodes,
        GraphIndexer.mkSectionNodes, identifyRelationships_single, hpre,
        GraphIndexer.precomputeNodeRelationships]
  · cases hpre : cfg.precomputeRelationships <;>
      simp [GraphIndexer.index, hsp, GraphIndexer.createGraphNodes,
        GraphIndexer.mkSectionNodes, identifyRelationships_single, hpre,
        GraphIndexer.precomputeNodeRelationships]
  · simp [GraphIndexer.index, hsp, GraphIndexer.createGraphNodes,
      GraphIndexer.mkSectionNodes, identifyRelationships_single]

/-- C5 witness: the amended statement at the whitespace input `" \n "`. -/
theorem c5_empty_input_amended_witness :
    (TreeGenerator.generateTree [] " \n " "T").nodes = [] ∧
    (GraphIndexer.index GraphIndexer.defaultConfig " \n " "T").nodes.length = 1 ∧
    ((GraphIndexer.index GraphIndexer.defaultConfig " \n " "T").nodes.map
      (fun n => n.type)) = ["document"] ∧
    (GraphIndexer.index GraphIndexer.defaultConfig " \n " "T").edges = [] :=
  c5_empty_input_amended " \n " "T" [] GraphIndexer.defaultConfig
    (by unfold wsOnly; decide)

theorem markdownMatch_head {cs : List Char} {r : Nat × List Char}
    (h : markdownMatch cs = some r) : ∃ rest, cs = '#' :: rest := by
  rcases cs with _ | ⟨c, rest⟩
  · simp [markdownMatch] at h
  · by_cases hc : c = '#'
    · exact ⟨rest, by rw [hc]⟩
    · exfalso
      simp [markdownMatch, List.takeWhile_cons, hc] at h

theorem numberedMatch_head {cs : List Char} {r : Nat × List Char}
    (h : numberedMatch cs = some r) :
    ∃ c rest, cs = c :: rest ∧ c.isDigit = true := by
  rcases cs with _ | ⟨c, rest⟩
  · simp [numberedMatch] at h
  · by_cases hd : c.isDigit = true
    · exact ⟨c, rest, rfl, hd⟩
    · exfalso
      simp [numberedMatch, List.takeWhile_cons, hd] at h

/-- A markdown-heading paragraph starts with `#`, which is not a digit, so
the numbered-outline regex cannot match it (the two detectors are mutually
exclusive, making their ordering difference between the two classifiers
irrelevant). -/
theorem numberedMatch_none_of_markdown {cs : List Char} {r : Nat × List Char}
    (h : markdownMatch cs = some r) : numberedMatch cs = none := by
  obtain ⟨rest, rfl⟩ := markdownMatch_head h
  have hdig : ('#'.isDigit) = false := rfl
  simp [numberedMatch, List.takeWhile_cons, hdig]

/-- A numbered-outline paragraph starts with a digit, which is not `#`, so
the markdown regex cannot match it. -/
theorem markdownMatch_none_of_numbered {cs : List Char} {r : Nat × List Char}
    (h : numberedMatch cs = some r) : markdownMatch cs = none := by
  obtain ⟨c, rest, rfl, hd⟩ := numberedMatch_head h
  have hc : ¬ (c = '#') := by
    intro hcon
    rw [hcon] at hd
    exact absurd hd (by decide)
  simp [markdownMatch, List.takeWhile_cons, hc]

/-- C9 counterexample: on `"Setup:"` the Segmenter's generic label
heuristic (absent from the GraphIndexer) fires, so the two classifiers
disagree. -/
theorem c9_counterexample_label_heuristic :
    (GraphIndexer.analyzeParagraph "Setup:").isSection = false ∧
    (TreeGenerator.analyzeParagraphForSection [] "Setup:").isHeading = true ∧
    ¬ ((GraphIndexer.analyzeParagraph "Setup:").isSection =
        (TreeGenerator.analyzeParagraphForSection [] "Setup:").isHeading) := by
  decide

/-- C9 (amended): whenever `GraphIndexer.analyzeParagraph` classifies a
paragraph as a heading, `TreeGenerator.analyzeParagraphForSection` (with no
custom patterns) agrees and produces the same title and level; only the
converse fails, on paragraphs matched solely by the Segmenter's generic
label heuristic. -/
theorem c9_heading_classifier_agreement (p : String)
    (h : (GraphIndexer.analyzeParagraph p).isSection = true) :
    (TreeGenerator.analyzeParagraphForSection [] p).isHeading = true ∧
    (TreeGenerator.analyzeParagraphForSection [] p).title =
      (GraphIndexer.analyzeParagraph p).title ∧
    (TreeGenerator.analyzeParagraphForSection [] p).level =
      (GraphIndexer.analyzeParagraph p).level := by
  unfold GraphIndexer.analyzeParagraph TreeGenerator.analyzeParagraphForSection
  simp only [List.findSome?_nil]
  cases hm : markdownMatch p.data with
  | some r =>
    rcases r with ⟨k, t⟩
    have hn := numberedMatch_none_of_markdown hm
    simp [hm, hn]
  | none =>
    cases hn : numberedMatch p.data with
    | some r =>
      rcases r with ⟨comps, t⟩
      simp [hm, hn]
    | none =>
      by_cases hcm : commonSectionTest p.data = true
      · simp [hm, hn, hcm]
      · exfalso
        unfold GraphIndexer.analyzeParagraph at h
        simp [hm, hn, hcm] at h

/-- C9 witness: agreement at the markdown heading `"# Hello"`. -/
theorem c9_heading_classifier_agreement_witness :
    (TreeGenerator.analyzeParagraphForSection [] "# Hello").isHeading = true ∧
    (TreeGenerator.analyzeParagraphForSection [] "# Hello").title =
      (GraphIndexer.analyzeParagraph "# Hello").title ∧
    (TreeGenerator.analyzeParagraphForSection [] "# Hello").level =
      (GraphIndexer.analyzeParagraph "# Hello").level :=
  c9_heading_classifier_agreement "# Hello" (by decide)

theorem jsDedup_eq_self {l : List String} (h : l.Nodup) : jsDedup l = l := by
  induction l with
  | nil => rfl
  | cons x xs ih =>
    rcases List.nodup_cons.mp h with ⟨hx, hxs⟩
    rw [jsDedup, ih hxs, List.filter_eq_self.mpr]
    intro y hy
    simp only [ne_eq, decide_not, Bool.not_eq_eq_eq_not, Bool.not_true,
      decide_eq_false_iff_not]
    intro hcon
    exact hx (hcon ▸ hy)

theorem foldl_max_init_le (l : List ℚ) : ∀ a : ℚ, a ≤ l.foldl max a := by
  induction l with
  | nil => intro a; simp
  | cons y ys ih =>
    intro a
    exact le_trans (le_max_left a y) (ih (max a y))

theorem listMax_nonneg {l : List ℚ} (h : ∀ x ∈ l, 0 ≤ x) : 0 ≤ listMax l := by
  cases l with
  | nil => simp [listMax]
  | cons x xs =>
    exact le_trans (h x (List.mem_cons_self x xs)) (foldl_max_init_le xs x)

theorem min_one_max_zero {x : ℚ} (hx : 0 ≤ x) :
    min (max x 0) 1 = min x 1 := by
  rw [max_eq_left hx]

/-- With a duplicate-free keyword list on the candidate node, the
similarity the selective BMSSP computes coincides with set-Jaccard. -/
theorem calcSemSim_eq_jaccard (node source : GraphNode) (kws : List String)
    (hk : node.metadata.keywords = some kws) (hnd : kws.Nodup) :
    OptimizedBMSSPAlgorithm.calculateSemanticSimilarity node source =
      jaccardSetSimilarity kws (source.metadata.keywords.getD []) := by
  unfold OptimizedBMSSPAlgorithm.calculateSemanticSimilarity jaccardSetSimilarity
  rw [hk]
  simp only [Option.getD_some]
  rcases kws with _ | ⟨k, krest⟩
  · simp [jsDedup, ite_self]
  · rcases hk2 : source.metadata.keywords.getD [] with _ | ⟨m, mrest⟩
    · simp [jsDedup, ite_self, List.filter_eq_nil_iff]
    · have hu : jsDedup ((k :: krest) ++ (m :: mrest)) ≠ [] := by
        simp [jsDedup]
      have hlen : 1 ≤ (jsDedup ((k :: krest) ++ (m :: mrest))).length := by
        rcases hj : jsDedup ((k :: krest) ++ (m :: mrest)) with _ | ⟨_, _⟩
        · exact absurd hj hu
        · simp
      simp only [List.isEmpty_cons, Bool.or_self, Bool.false_eq_true, if_false,
        List.isEmpty_eq_true, hu, jsDedup_eq_self hnd]
      rw [max_eq_left (by exact_mod_cast hlen)]

/-- C6 counterexample: for a node with stored centrality 0 (which lies in
the claimed range [0, 1]) the code's `|| 0.5` treats the 0 as absent and
scores centrality as 0.5, so the computed activation score (91/200) differs
from the claimed formula's value (33/100). -/
theorem c6_counterexample_zero_centrality :
    OptimizedBMSSPAlgorithm.calculateNodeActivationScore c6Node [] c6Graph =
      91 / 200 ∧
    specActivationScore c6Node [] c6Graph = 33 / 100 ∧
    ¬ (OptimizedBMSSPAlgorithm.calculateNodeActivationScore c6Node [] c6Graph =
        specActivationScore c6Node [] c6Graph) := by
  refine ⟨?_, ?_, ?_⟩
  · norm_num [OptimizedBMSSPAlgorithm.calculateNodeActivationScore, c6Node,
      c6Graph, jsOrRat, listMax]
  · norm_num [specActivationScore, c6Node, c6Graph, jaccardSetSimilarity,
      jsDedup, listMax]
  · norm_num [OptimizedBMSSPAlgorithm.calculateNodeActivationScore,
      specActivationScore, c6Node, c6Graph, jsOrRat, jaccardSetSimilarity,
      jsDedup, listMax]

/-- C6 (amended): for every node whose stored centrality is in (0, 1] —
nonzero, because `|| 0.5` replaces a stored 0 by the default — and whose
keyword list is duplicate-free, the selective variant's activation score
equals the specification's formula. -/
theorem c6_activation_score_formula (node : GraphNode) (src : List String)
    (graph : GraphIndex) (c : ℚ) (kws : List String)
    (hc : node.metadata.centrality = some c) (h0 : 0 < c) (h1 : c ≤ 1)
    (hk : node.metadata.keywords = some kws) (hnd : kws.Nodup) :
    OptimizedBMSSPAlgorithm.calculateNodeActivationScore node src graph =
      specActivationScore node src graph := by
  unfold OptimizedBMSSPAlgorithm.calculateNodeActivationScore specActivationScore
  have hcen : jsOrRat node.metadata.centrality 0.5 = c := by
    simp [jsOrRat, hc, ne_of_gt h0]
  have hcen2 : node.metadata.centrality.getD 0 = c := by simp [hc]
  have hsim : (graph.nodes.filter
        (fun n => src.contains n.nodeId)).map
        (fun source => OptimizedBMSSPAlgorithm.calculateSemanticSimilarity node source) =
      (graph.nodes.filter (fun n => src.contains n.nodeId)).map
        (fun source => jaccardSetSimilarity (node.metadata.keywords.getD [])
          (source.metadata.keywords.getD [])) := by
    refine List.map_congr_left ?_
    intro source hs
    rw [calcSemSim_eq_jaccard node source kws hk hnd, hk]
    simp
  simp only [hcen, hcen2, hsim, ne_eq, List.length_eq_zero]
  refine (min_one_max_zero ?_).symm
  refine add_nonneg (add_nonneg (add_nonneg (add_nonneg ?_ ?_) ?_) ?_) ?_
  · exact mul_nonneg h0.le (by norm_num)
  · refine mul_nonneg ?_ (by norm_num)
    split
    · exact le_refl 0
    · refine listMax_nonneg ?_
      intro x hx
      rcases List.mem_map.mp hx with ⟨source, hs, rfl⟩
      unfold jaccardSetSimilarity
      dsimp only
      split
      · exact le_refl 0
      · positivity
  · refine mul_nonneg ?_ (by norm_num)
    split <;> norm_num
  · refine mul_nonneg ?_ (by norm_num)
    split <;> norm_num
  · refine mul_nonneg (le_trans (by norm_num) (le_max_left 0.7 _)) (by norm_num)

/-- C6 witness: the amended formula equality at a concrete node with
centrality 3/5. -/
theorem c6_activation_score_formula_witness :
    OptimizedBMSSPAlgorithm.calculateNodeActivationScore c6NodeW [] c6Graph =
      specActivationScore c6NodeW [] c6Graph :=
  c6_activation_score_formula c6NodeW [] c6Graph (3 / 5) ["alpha"] rfl
    (by norm_num) (by norm_num) rfl (by simp)

/-- C8 counterexample: with the unknown id `"node_missing"` in the request,
`retrieveContent` silently returns only the present node's record (no
assertion, no error value), and `calculatePathScore` on a path through the
missing id substitutes centrality 0 for it and returns the ordinary score
3/40 — the operations do not fail loudly as claimed. -/
theorem c8_counterexample_silent_skip :
    GraphIndexer.retrieveContent c8Graph ["node_1", "node_missing"] =
      [{ nodeId := "node_1", title := "Alpha", content := "Alpha body",
         summary := "Alpha body" }] ∧
    (∀ r ∈ GraphIndexer.retrieveContent c8Graph ["node_1", "node_missing"],
      r.nodeId ≠ "node_missing") ∧
    OptimizedBMSSPAlgorithm.calculatePathScore ["node_1", "node_missing"]
      c8Graph = 3 / 40 := by
  refine ⟨by rfl, ?_, ?_⟩
  · intro r hr
    have : GraphIndexer.retrieveContent c8Graph ["node_1", "node_missing"] =
        [{ nodeId := "node_1", title := "Alpha", content := "Alpha body",
           summary := "Alpha body" }] := rfl
    rw [this] at hr
    simp at hr
    rw [hr]
    decide
  · norm_num [OptimizedBMSSPAlgorithm.calculatePathScore, c8Graph, jsOrRat,
      List.find?, List.zip, List.zipWith,
      show decide ("node_1" = "node_missing") = false from rfl]

/-- C8 (amended): the operations are total and silently tolerant of unknown
ids: `retrieveContent` returns, in request order, exactly the records of
the ids present in the graph (an id not in the graph contributes nothing),
and the per-node centrality lookup of `calculatePathScore` substitutes the
default 0 for a missing id instead of failing. -/
theorem c8_missing_ids_handled (graph : GraphIndex) (nodeIds : List String)
    (id : String) (hmiss : ∀ n ∈ graph.nodes, n.nodeId ≠ id) :
    GraphIndexer.retrieveContent graph nodeIds =
      nodeIds.filterMap (fun i =>
        (graph.nodes.find? (fun n => n.nodeId = i)).map
          (fun node => { nodeId := node.nodeId, title := node.title,
                         content := node.content, summary := node.summary })) ∧
    (∀ r ∈ GraphIndexer.retrieveContent graph nodeIds,
      ∃ n ∈ graph.nodes, r.nodeId = n.nodeId) ∧
    (∀ r ∈ GraphIndexer.retrieveContent graph nodeIds, r.nodeId ≠ id) ∧
    pathNodeCentrality graph id = 0 := by
  have hfind : graph.nodes.find? (fun n => n.nodeId = id) = none := by
    rw [List.find?_eq_none]
    intro n hn
    simpa using hmiss n hn
  have heq : GraphIndexer.retrieveContent graph nodeIds =
      nodeIds.filterMap (fun i =>
        (graph.nodes.find? (fun n => n.nodeId = i)).map
          (fun node => { nodeId := node.nodeId, title := node.title,
                         content := node.content, summary := node.summary })) := by
    unfold GraphIndexer.retrieveContent
    rw [List.filterMap_map, List.map_filterMap]
    simp [Function.comp]
  refine ⟨heq, ?_, ?_, ?_⟩
  · intro r hr
    rw [heq] at hr
    rcases List.mem_filterMap.mp hr with ⟨i, hi, hmap⟩
    cases hf : graph.nodes.find? (fun n => n.nodeId = i) with
    | none => rw [hf] at hmap; simp at hmap
    | some n =>
      rw [hf] at hmap
      simp only [Option.map_some', Option.some.injEq] at hmap
      refine ⟨n, List.mem_of_find?_eq_some hf, ?_⟩
      rw [← hmap]
  · intro r hr
    rcases List.mem_filterMap.mp (heq ▸ hr) with ⟨i, hi, hmap⟩
    cases hf : graph.nodes.find? (fun n => n.nodeId = i) with
    | none => rw [hf] at hmap; simp at hmap
    | some n =>
      rw [hf] at hmap
      simp only [Option.map_some', Option.some.injEq] at hmap
      have hn := List.mem_of_find?_eq_some hf
      rw [← hmap]
      exact hmiss n hn
  · unfold pathNodeCentrality
    rw [hfind]

/-- C8 witness: the amended statement at the concrete single-node graph and
request `["node_1", "node_missing"]`. -/
theorem c8_missing_ids_handled_witness :
    GraphIndexer.retrieveContent c8Graph ["node_1", "node_missing"] =
      (["node_1", "node_missing"] : List String).filterMap (fun i =>
        (c8Graph.nodes.find? (fun n => n.nodeId = i)).map
          (fun node => { nodeId := node.nodeId, title := node.title,
                         content := node.content, summary := node.summary })) ∧
    (∀ r ∈ GraphIndexer.retrieveContent c8Graph ["node_1", "node_missing"],
      ∃ n ∈ c8Graph.nodes, r.nodeId = n.nodeId) ∧
    (∀ r ∈ GraphIndexer.retrieveContent c8Graph ["node_1", "node_missing"],
      r.nodeId ≠ "node_missing") ∧
    pathNodeCentrality c8Graph "node_missing" = 0 :=
  c8_missing_ids_handled c8Graph ["node_1", "node_missing"] "node_missing"
    (by intro n hn; fin_cases hn; decide)

theorem calculateNodeActivationScore_le_one (n : GraphNode)
    (src : List String) (g : GraphIndex) :
    OptimizedBMSSPAlgorithm.calculateNodeActivationScore n src g ≤ 1 := by
  unfold OptimizedBMSSPAlgorithm.calculateNodeActivationScore
  exact min_le_right _ _

/-- Every neighbor produced by the selective neighbor filter carries the
weight of some graph edge. -/
theorem neighbor_weight_mem (nodeId : String) (graph : GraphIndex)
    (visited : List String) (minW parentScore : ℚ) (nb : String × ℚ)
    (h : nb ∈ OptimizedBMSSPAlgorithm.getValidNeighborsWithSelectiveActivation
      nodeId graph visited minW parentScore) :
    ∃ e ∈ graph.edges, nb.2 = e.weight := by
  unfold OptimizedBMSSPAlgorithm.getValidNeighborsWithSelectiveActivation at h
  rw [mem_sortIns] at h
  rcases List.mem_append.mp h with h' | h' <;>
    rcases List.mem_filterMap.mp h' with ⟨e, he, hsome⟩ <;>
    [skip; skip] <;>
    (split_ifs at hsome with hcond
     refine ⟨e, he, ?_⟩
     rcases Option.some.injEq _ _ ▸ hsome with rfl
     rfl)

/-- C2: in the selective BMSSP variant, whenever every graph edge weight
lies in [0, 1], the propagated activation score
(base × edge weight × parent score) of every neighbor enqueued while
expanding an entry above the 0.25 activation floor is at most the parent
entry's activation score — activation scores are non-increasing along
every expanded path. -/
theorem c2_propagated_activation_monotone (graph : GraphIndex)
    (sourceNodeIds : List String) (minEdgeWeight : ℚ)
    (current : OptimizedBMSSPAlgorithm.OptimizedQueueItem)
    (hw : ∀ e ∈ graph.edges, 0 ≤ e.weight ∧ e.weight ≤ 1)
    (hcur : 0.25 ≤ current.activationScore) :
    ∀ item ∈ OptimizedBMSSPAlgorithm.expandEntry graph sourceNodeIds
        minEdgeWeight current,
      item.activationScore ≤ current.activationScore := by
  intro item hitem
  unfold OptimizedBMSSPAlgorithm.expandEntry at hitem
  rcases List.mem_filterMap.mp hitem with ⟨nb, hnb, hsome⟩
  dsimp only at hsome
  split_ifs at hsome with hv hfloor
  have hitem' :
      item.activationScore =
        (match graph.nodes.find? (fun n => n.nodeId = nb.1) with
          | some neighborNode =>
            OptimizedBMSSPAlgorithm.calculateNodeActivationScore neighborNode
              sourceNodeIds graph
          | none => (0.5 : ℚ)) * nb.2 * current.activationScore := by
    rcases Option.some.injEq _ _ ▸ hsome with rfl
    rfl
  obtain ⟨e, he, hwe⟩ := neighbor_weight_mem current.nodeId graph
    current.visited minEdgeWeight current.activationScore nb hnb
  obtain ⟨hw0, hw1⟩ := hw e he
  rw [hitem']
  set base := (match graph.nodes.find? (fun n => n.nodeId = nb.1) with
    | some neighborNode =>
      OptimizedBMSSPAlgorithm.calculateNodeActivationScore neighborNode
        sourceNodeIds graph
    | none => (0.5 : ℚ)) with hbase
  have hbase1 : base ≤ 1 := by
    rw [hbase]
    cases hf : graph.nodes.find? (fun n => n.nodeId = nb.1) with
    | none => norm_num
    | some n => exact calculateNodeActivationScore_le_one n sourceNodeIds graph
  have hbw : base * nb.2 ≤ 1 := by
    rcases le_or_lt 0 base with hb | hb
    · exact mul_le_one₀ hbase1 (hwe ▸ hw0) (hwe ▸ hw1)
    · have : base * nb.2 ≤ 0 :=
        mul_nonpos_of_nonpos_of_nonneg hb.le (hwe ▸ hw0)
      linarith
  exact mul_le_of_le_one_left (le_trans (by norm_num) hcur) hbw

/-- C2 witness: monotonicity at the concrete two-node graph (the expanded
neighbor list is non-empty there, with propagated score 22/125 ≤ 1/2). -/
theorem c2_propagated_activation_monotone_witness :
    (OptimizedBMSSPAlgorithm.expandEntry c2Graph [] (1 / 10) c2Cur).all
      (fun item => decide (item.activationScore ≤ c2Cur.activationScore)) =
      true := by
  rw [List.all_eq_true]
  intro item hitem
  exact decide_eq_true
    (c2_propagated_activation_monotone c2Graph [] (1 / 10) c2Cur
      (by
        intro e he
        rcases List.mem_singleton.mp he with rfl
        constructor <;> norm_num)
      (by norm_num [c2Cur]) item hitem)

/-- C10: the selective variant has a second, undocumented enqueue floor:
(a) every entry the expansion block ever adds to the worklist has a
propagated activation score of at least 0.15 (a neighbor falling below
0.15 is never enqueued), and (b) a popped entry whose activation score is
below the 0.25 expansion floor is discarded by the main loop without being
expanded or converted into a result: the loop continues on the remaining
queue with the results, signature set and activated-node set unchanged. -/
theorem c10_hidden_enqueue_floor (graph : GraphIndex) (src : List String)
    (minW maxDepth : ℚ) (maxResults : Nat)
    (current : OptimizedBMSSPAlgorithm.OptimizedQueueItem) (fuel : Nat)
    (queue rest : List OptimizedBMSSPAlgorithm.OptimizedQueueItem)
    (vp : List String) (results : List PathResult) (acts : List String) :
    (∀ item ∈ OptimizedBMSSPAlgorithm.expandEntry graph src minW current,
      0.15 ≤ item.activationScore) ∧
    (queue ≠ [] → results.length < maxResults →
      sortIns OptimizedBMSSPAlgorithm.queueCmp queue = current :: rest →
      current.activationScore < 0.25 →
      OptimizedBMSSPAlgorithm.loop graph src maxDepth maxResults minW
          (fuel + 1) queue vp results acts =
        OptimizedBMSSPAlgorithm.loop graph src maxDepth maxResults minW
          fuel rest vp results acts) := by
  constructor
  · intro item hitem
    unfold OptimizedBMSSPAlgorithm.expandEntry at hitem
    rcases List.mem_filterMap.mp hitem with ⟨nb, hnb, hsome⟩
    dsimp only at hsome
    split_ifs at hsome with hv hfloor
    rcases Option.some.injEq _ _ ▸ hsome with rfl
    exact hfloor
  · intro hq hr hsort hscore
    rw [OptimizedBMSSPAlgorithm.loop]
    rw [if_neg (by
      push_neg
      constructor
      · simpa [List.isEmpty_iff] using hq
      · omega)]
    rw [hsort]
    dsimp only
    rw [if_pos (Or.inr hscore)]

/-- C10 witness: at the concrete singleton queue holding an entry with
activation score 1/5, the loop pops and discards it without expansion, and
every expansion product satisfies the 0.15 floor. -/
theorem c10_hidden_enqueue_floor_witness :
    (∀ item ∈ OptimizedBMSSPAlgorithm.expandEntry c2Graph [] (1 / 10) c10Cur,
      0.15 ≤ item.activationScore) ∧
    OptimizedBMSSPAlgorithm.loop c2Graph [] 3 10 (1 / 10) 6 [c10Cur] [] [] [] =
      OptimizedBMSSPAlgorithm.loop c2Graph [] 3 10 (1 / 10) 5 [] [] [] [] := by
  have h := c10_hidden_enqueue_floor c2Graph [] (1 / 10) 3 10 c10Cur 5
    [c10Cur] [] [] [] []
  exact ⟨h.1, h.2 (by simp) (by norm_num) (by rfl) (by norm_num [c10Cur])⟩

theorem foldl_add_eq_sum {α : Type} (f : α → ℚ) (step : ℚ → α → ℚ)
    (hstep : ∀ s x, step s x = s + f x) :
    ∀ (l : List α) (a : ℚ), l.foldl step a = a + (l.map f).sum := by
  intro l
  induction l with
  | nil => intro a; simp
  | cons x xs ih =>
    intro a
    rw [List.foldl_cons, hstep, ih, List.map_cons, List.sum_cons, add_assoc]

theorem scoreStep_eq (tT sT xT : List String) (lt : List Char) (s : ℚ)
    (qt : String) :
    SimpleSearch.scoreStep tT sT xT lt s qt = s +
      ((if tT.contains qt then (10 : ℚ) else 0) +
       (if listInfix qt.data lt then (5 : ℚ) else 0) +
       2 * ((sT.filter (fun t => t = qt)).length : ℚ) +
       min (0.5 * ((xT.filter (fun t => t = qt)).length : ℚ)) 5) := by
  unfold SimpleSearch.scoreStep
  have hm : ((xT.filter (fun t => t = qt)).length : ℚ) * 0.5 =
      0.5 * ((xT.filter (fun t => t = qt)).length : ℚ) := mul_comm _ _
  by_cases h1 : tT.contains qt = true <;>
    by_cases h2 : listInfix qt.data lt = true <;>
      simp only [h1, h2, if_true, if_false, Bool.false_eq_true, hm] <;> ring

/-- The per-node scorer of `SimpleSearch` computes exactly the
specification's formula. -/
theorem scoreNode_eq_spec (node : TreeNode) (queryTerms : List String) :
    SimpleSearch.scoreNode node queryTerms =
      SimpleSearch.specScoreNode node queryTerms := by
  unfold SimpleSearch.scoreNode SimpleSearch.specScoreNode
  dsimp only
  rw [foldl_add_eq_sum _ _
    (scoreStep_eq (SimpleSearch.tokenize node.title)
      (SimpleSearch.tokenize node.summary)
      (match node.text with
        | some t => SimpleSearch.tokenize t
        | none => [])
      (lowerChars node.title.data)) queryTerms 0]
  by_cases hp : listInfix (joinSpaceList queryTerms).data
      (lowerChars node.title.data) = true <;>
    simp only [hp, if_true, if_false, Bool.false_eq_true, zero_add] <;> ring

/-- C7: the keyword scorer and its search pipeline coincide with the
specification's description — each node's score is 10 per exact
title-token match, 5 per substring containment of a query term in the
lower-cased title, 2 per summary-token occurrence, 0.5 per full-text
occurrence capped at 5 per query term, plus a flat 15 for a phrase match;
and the returned node list is exactly the strictly-positively scored
nodes, sorted by score descending and truncated to `maxResults`. -/
theorem c7_keyword_scorer_refines_spec :
    (∀ (node : TreeNode) (queryTerms : List String),
      SimpleSearch.scoreNode node queryTerms =
        SimpleSearch.specScoreNode node queryTerms) ∧
    (∀ (maxResults : Nat) (tree : TreeIndex) (query : String),
      SimpleSearch.search maxResults tree query =
        SimpleSearch.specSearch maxResults tree query) := by
  constructor
  · exact scoreNode_eq_spec
  · intro maxResults tree query
    unfold SimpleSearch.search SimpleSearch.specSearch
    dsimp only
    have hmap : (SimpleSearch.flattenTree tree.nodes).map
        (fun node => (node, SimpleSearch.scoreNode node
          (SimpleSearch.tokenize query))) =
        (SimpleSearch.flattenTree tree.nodes).map
        (fun node => (node, SimpleSearch.specScoreNode node
          (SimpleSearch.tokenize query))) :=
      List.map_congr_left (fun node _ => by rw [scoreNode_eq_spec])
    rw [hmap]

theorem resInv_mono (maxDepth : ℚ) {vp vp' : List String}
    (results : List PathResult) (hsub : vp ⊆ vp')
    (h : resInv maxDepth vp results) : resInv maxDepth vp' results := by
  obtain ⟨hmem, hpw⟩ := h
  exact ⟨fun r hr => ⟨(hmem r hr).1, (hmem r hr).2.1, hsub (hmem r hr).2.2⟩, hpw⟩

theorem resInv_append (maxDepth : ℚ) (vp : List String)
    (results : List PathResult) (r : PathResult)
    (hinv : resInv maxDepth vp results)
    (hlen : 2 ≤ r.nodeIds.length) (hd : r.distance ≤ maxDepth)
    (hnew : arrowJoin r.nodeIds ∉ vp) :
    resInv maxDepth (arrowJoin r.nodeIds :: vp) (results ++ [r]) := by
  obtain ⟨hmem, hpw⟩ := hinv
  constructor
  · intro x hx
    rcases List.mem_append.mp hx with hx | hx
    · obtain ⟨h1, h2, h3⟩ := hmem x hx
      exact ⟨h1, h2, List.mem_cons_of_mem _ h3⟩
    · rcases List.mem_singleton.mp hx with rfl
      exact ⟨hlen, hd, List.mem_cons_self _ _⟩
  · rw [List.pairwise_append]
    refine ⟨hpw, List.pairwise_singleton _ _, ?_⟩
    intro x hx y hy
    rcases List.mem_singleton.mp hy with rfl
    intro heq
    exact hnew (heq ▸ (hmem x hx).2.2)

/-- The plain variant's loop preserves the result invariant. -/
theorem loop_resInv (graph : GraphIndex) (maxDepth : ℚ) (maxResults : Nat)
    (minW : ℚ) :
    ∀ (fuel : Nat) (queue : List BMSSPAlgorithm.QueueItem) (vp : List String)
      (results : List PathResult), resInv maxDepth vp results →
      ∃ vp', resInv maxDepth vp'
        (BMSSPAlgorithm.loop graph maxDepth maxResults minW fuel queue vp
          results) := by
  intro fuel
  induction fuel with
  | zero =>
    intro queue vp results h
    exact ⟨vp, by rwa [BMSSPAlgorithm.loop]⟩
  | succ fuel ih =>
    intro queue vp results h
    rw [BMSSPAlgorithm.loop]
    by_cases hguard : (queue.isEmpty = true) ∨ maxResults ≤ results.length
    · rw [if_pos hguard]
      exact ⟨vp, h⟩
    · rw [if_neg hguard]
      split
      · exact ⟨vp, h⟩
      · rename_i current rest hsort
        by_cases hdepth : maxDepth < current.distance
        · rw [if_pos hdepth]
          exact ih rest vp results h
        · rw [if_neg hdepth]
          dsimp only
          by_cases hsig : arrowJoin current.path ∈ vp
          · rw [if_pos hsig]
            exact ih rest vp results h
          · rw [if_neg hsig]
            by_cases hlen : 1 < current.path.length
            · rw [if_pos hlen]
              exact ih _ _ _ (resInv_append maxDepth vp results _ h hlen
                (le_of_not_lt hdepth) hsig)
            · rw [if_neg hlen]
              exact ih _ _ _ (resInv_mono maxDepth results
                (List.subset_cons_self _ vp) h)

/-- The selective variant's loop preserves the result invariant. -/
theorem loopO_resInv (graph : GraphIndex) (src : List String) (maxDepth : ℚ)
    (maxResults : Nat) (minW : ℚ) :
    ∀ (fuel : Nat) (queue : List OptimizedBMSSPAlgorithm.OptimizedQueueItem)
      (vp : List String) (results : List PathResult) (acts : List String),
      resInv maxDepth vp results →
      ∃ vp', resInv maxDepth vp'
        (OptimizedBMSSPAlgorithm.loop graph src maxDepth maxResults minW fuel
          queue vp results acts).1 := by
  intro fuel
  induction fuel with
  | zero =>
    intro queue vp results acts h
    exact ⟨vp, by rwa [OptimizedBMSSPAlgorithm.loop]⟩
  | succ fuel ih =>
    intro queue vp results acts h
    rw [OptimizedBMSSPAlgorithm.loop]
    by_cases hguard : (queue.isEmpty = true) ∨ maxResults ≤ results.length
    · rw [if_pos hguard]
      exact ⟨vp, h⟩
    · rw [if_neg hguard]
      split
      · exact ⟨vp, h⟩
      · rename_i current rest hsort
        by_cases hskip : maxDepth < current.distance ∨
            current.activationScore < 0.25
        · rw [if_pos hskip]
          exact ih rest vp results acts h
        · rw [if_neg hskip]
          dsimp only
          by_cases hsig : arrowJoin current.path ∈ vp
          · rw [if_pos hsig]
            exact ih rest vp results acts h
          · rw [if_neg hsig]
            by_cases hlen : 1 < current.path.length
            · rw [if_pos hlen]
              exact ih _ _ _ _ (resInv_append maxDepth vp results _ h hlen
                (le_of_not_lt (fun hcon => hskip (Or.inl hcon))) hsig)
            · rw [if_neg hlen]
              exact ih _ _ _ _ (resInv_mono maxDepth results
                (List.subset_cons_self _ vp) h)

/-- Sorting by path score descending and truncating a result list that
satisfies the loop invariant yields claim C1's output contract. -/
theorem soundPathList_sorted_take (results : List PathResult) (maxDepth : ℚ)
    (maxResults : Nat) (vp : List String) (h : resInv maxDepth vp results) :
    soundPathList ((sortIns (fun a b => decide (b.pathScore ≤ a.pathScore))
      results).take maxResults) maxDepth maxResults := by
  obtain ⟨hmem, hpw⟩ := h
  have hperm : (sortIns (fun a b => decide (b.pathScore ≤ a.pathScore))
      results).Perm results := sortIns_perm _ _
  have hsub : ∀ r ∈ (sortIns (fun a b => decide (b.pathScore ≤ a.pathScore))
      results).take maxResults, r ∈ results := fun r hr =>
    hperm.mem_iff.mp (List.take_subset _ _ hr)
  refine ⟨?_, ?_, ?_, ?_, ?_⟩
  · have hsymm : ∀ {x y : PathResult},
        arrowJoin x.nodeIds ≠ arrowJoin y.nodeIds →
        arrowJoin y.nodeIds ≠ arrowJoin x.nodeIds := fun h heq => h heq.symm
    have hpw2 := (hperm.pairwise_iff hsymm).mpr hpw
    exact (List.Pairwise.sublist (List.take_sublist _ _) hpw2).imp
      (fun hne heq => hne (by rw [heq]))
  · intro r hr
    exact (hmem r (hsub r hr)).1
  · intro r hr
    exact (hmem r (hsub r hr)).2.1
  · have htot : ∀ a b : PathResult,
        decide (b.pathScore ≤ a.pathScore) = true ∨
        decide (a.pathScore ≤ b.pathScore) = true := by
      intro a b
      rcases le_total b.pathScore a.pathScore with hle | hle
      · exact Or.inl (decide_eq_true hle)
      · exact Or.inr (decide_eq_true hle)
    have htrans : ∀ a b c : PathResult,
        decide (b.pathScore ≤ a.pathScore) = true →
        decide (c.pathScore ≤ b.pathScore) = true →
        decide (c.pathScore ≤ a.pathScore) = true := by
      intro a b c hab hbc
      exact decide_eq_true (le_trans (of_decide_eq_true hbc)
        (of_decide_eq_true hab))
    have hs1 := pairwise_sortIns (fun a b : PathResult =>
      decide (b.pathScore ≤ a.pathScore)) htot htrans results
    exact List.Pairwise.sublist (List.take_sublist _ _)
      (hs1.imp (fun h => of_decide_eq_true h))
  · exact le_trans (le_of_eq (List.length_take _ _)) (min_le_left _ _)

/-- C1: for every graph, source-id list and options record, the path list
returned by both BMSSP variants has pairwise distinct ordered node-id
sequences, only paths of length ≥ 2, all cumulative distances within
`maxDepth`, is sorted by path score non-increasing, and has at most
`maxResults` entries. -/
theorem c1_bounded_paths_output_sound (graph : GraphIndex)
    (sourceNodeIds : List String) (options : BMSSPOptions) :
    soundPathList
      (OptimizedBMSSPAlgorithm.findBoundedPaths graph sourceNodeIds
        options).paths
      (options.maxDepth.getD 3) (options.maxResults.getD 10) ∧
    soundPathList
      (BMSSPAlgorithm.findBoundedPaths graph sourceNodeIds options)
      (options.maxDepth.getD 3) (options.maxResults.getD 10) := by
  have hinit : resInv (options.maxDepth.getD 3) [] [] :=
    ⟨fun r hr => absurd hr (List.not_mem_nil r), List.Pairwise.nil⟩
  constructor
  · unfold OptimizedBMSSPAlgorithm.findBoundedPaths
    dsimp only
    obtain ⟨vp', hinv⟩ := loopO_resInv graph sourceNodeIds
      (options.maxDepth.getD 3) (options.maxResults.getD 10)
      (options.minEdgeWeight.getD 0.1) (searchFuel graph sourceNodeIds)
      (sourceNodeIds.filterMap (fun sourceId =>
        if (graph.nodes.find? (fun n => n.nodeId = sourceId)).isSome then
          some { nodeId := sourceId
                 distance := 0
                 path := [sourceId]
                 visited := [sourceId]
                 activationScore :=
                   match graph.nodes.find? (fun n => n.nodeId = sourceId) with
                   | some sourceNode =>
                     OptimizedBMSSPAlgorithm.calculateNodeActivationScore
                       sourceNode sourceNodeIds graph
                   | none => 0
                 parentScore := 1 }
        else none)) [] [] _ hinit
    exact soundPathList_sorted_take _ _ _ vp' hinv
  · unfold BMSSPAlgorithm.findBoundedPaths
    dsimp only
    obtain ⟨vp', hinv⟩ := loop_resInv graph (options.maxDepth.getD 3)
      (options.maxResults.getD 10) (options.minEdgeWeight.getD 0.1)
      (searchFuel graph sourceNodeIds)
      (sourceNodeIds.filterMap (fun sourceId =>
        if (graph.nodes.find? (fun n => n.nodeId = sourceId)).isSome then
          some { nodeId := sourceId, distance := 0, path := [sourceId],
                 visited := [sourceId] }
        else none)) [] [] hinit
    exact soundPathList_sorted_take _ _ _ vp' hinv
